import Mathlib

/-!
Verification development for the query-execution and document-mutation core
of an embedded document database.  The development shallowly embeds:

* `src/doc/merge.rs` (`Document::merge`): the document mutation engine;
* `src/sql/statements/select.rs` (`select`, `SelectStatement`, its `Display`
  implementation, `SelectStatement::compute` and the `limit`/`start`
  accessors).

Collaborator code that is not part of the shown sources (the `Value`
path operations `set`/`del`/`increment`/`decrement`/`patch`/`merge`/`replace`,
the `def` field-default pass, `Options::check`, the `Iterator`, the clause
sub-grammars) is modelled from the specification; every such definition is
marked `Modelled from the spec:` in its doc comment.
-/

/-! ## Values (the `Value` tagged union of `sql::value`) -/

/-- Modelled from the spec: the `Value` tagged union (`sql::value::Value`),
absent from src/.  Covers void/absent, scalar primitives, array, object,
table reference, record id ("thing") and model reference. -/
inductive Value where
  | void
  | bool (b : Bool)
  | num (n : Int)
  | strand (s : String)
  | array (xs : List Value)
  | object (fs : List (String × Value))
  | table (t : String)
  | thing (t : String)
  | model (m : String)

/-- Modelled from the spec: replace (or append) the entry for key `k` in an
object's field list, preserving field order. -/
def setEntry (fs : List (String × Value)) (k : String) (v : Value) :
    List (String × Value) :=
  match fs with
  | [] => [(k, v)]
  | (k', w) :: tl => if k' == k then (k', v) :: tl else (k', w) :: setEntry tl k v

/-- Modelled from the spec: `Value::set` (absent from src/) — set the field at
the given path to the value, creating intermediate path segments as needed. -/
def setPath (v : Value) (path : List String) (nv : Value) : Value :=
  match path with
  | [] => nv
  | k :: rest =>
    let fs := match v with | .object fs => fs | _ => []
    let child := (List.lookup k fs).getD (.object [])
    .object (setEntry fs k (setPath child rest nv))

/-- Modelled from the spec: `Value::del` (absent from src/) — delete the field
at the given path; paths that do not resolve leave the value unchanged. -/
def delPath (v : Value) (path : List String) : Value :=
  match path with
  | [] => v
  | [k] =>
    match v with
    | .object fs => .object (fs.filter (fun p => p.1 != k))
    | _ => v
  | k :: rest =>
    match v with
    | .object fs =>
      match List.lookup k fs with
      | some av => .object (setEntry fs k (delPath av rest))
      | none => v
    | _ => v

/-- Modelled from the spec: `Value::get`-style path resolution (absent from
src/) — the value stored at a path, `void` when the path is absent. -/
def getPath (v : Value) (path : List String) : Value :=
  match path with
  | [] => v
  | k :: rest =>
    match v with
    | .object fs =>
      match List.lookup k fs with
      | some av => getPath av rest
      | none => .void
    | _ => .void

/-- Modelled from the spec: the `Inc` combination rule (absent from src/) —
numeric addition, collection append/union; a void target adopts a numeric
increment; other combinations leave the target unchanged. -/
def incVal (old v : Value) : Value :=
  match old, v with
  | .num a, .num b => .num (a + b)
  | .void, .num b => .num b
  | .array xs, .array ys => .array (xs ++ ys)
  | .array xs, w => .array (xs ++ [w])
  | o, _ => o

/-- Modelled from the spec: the `Dec` combination rule (absent from src/) —
the inverse of `Inc`: numeric subtraction; a void target adopts the negated
numeric decrement; other combinations leave the target unchanged. -/
def decVal (old v : Value) : Value :=
  match old, v with
  | .num a, .num b => .num (a - b)
  | .void, .num b => .num (-b)
  | o, _ => o

/-! ## Errors, expressions, patches -/

/-- The error taxonomy relevant to the embedded slice.  `unreachable` stands
for the `unreachable!()` defensive assertion in `Document::merge`. -/
inductive Error where
  | permission
  | evaluation (msg : String)
  | patchError
  | unreachable
deriving DecidableEq

/-- Modelled from the spec: the expression language seen by the mutation
engine (absent from src/): literal values, field references resolved against
the context document, and expressions whose evaluation fails (e.g.
division-by-zero-class errors). -/
inductive Expr where
  | const (v : Value)
  | field (p : List String)
  | failing (msg : String)

/-- Modelled from the spec: `Value::compute` for the expression fragment —
`compute(expr, ..., doc) -> Value | Error`; field-path expressions resolve
against the context document. -/
def Expr.compute (e : Expr) (doc : Value) : Except Error Value :=
  match e with
  | .const v => .ok v
  | .field p => .ok (getPath doc p)
  | .failing msg => .error (.evaluation msg)

/-- Modelled from the spec: a JSON-Patch-like operation; `invalid` stands for
a malformed operation, which must fail with a `PatchError`. -/
inductive PatchOp where
  | add (p : List String) (v : Value)
  | remove (p : List String)
  | change (p : List String) (v : Value)
  | invalid

/-- Modelled from the spec: `Value::patch` (absent from src/) — apply a
JSON-Patch-like operation list; a malformed operation aborts with
`PatchError`. -/
def applyPatch (c : Value) (ops : List PatchOp) : Except Error Value :=
  match ops with
  | [] => .ok c
  | .add p v :: rest => applyPatch (setPath c p v) rest
  | .remove p :: rest => applyPatch (delPath c p) rest
  | .change p v :: rest => applyPatch (setPath c p v) rest
  | .invalid :: _ => .error .patchError

mutual

/-- Modelled from the spec: `Value::merge` (absent from src/) — deep-merge the
given object into the current document: recursive key union, right-hand
values win on conflict for scalars, objects merge recursively. -/
def mergeVals (x y : Value) : Value :=
  match x, y with
  | .object a, .object b => .object (mergeFields a b)
  | _, y => y
termination_by 2 * sizeOf y

/-- Modelled from the spec: fold the right-hand object's fields into the
left-hand field list, merging recursively at shared keys. -/
def mergeFields (a b : List (String × Value)) : List (String × Value) :=
  match b with
  | [] => a
  | (k, bv) :: rest =>
    let nv := match List.lookup k a with
      | some av => mergeVals av bv
      | none => bv
    mergeFields (setEntry a k nv) rest
termination_by 2 * sizeOf b + 1

end

/-! ## Statements and data clauses -/

/-- Modelled from the spec: the `Operator` enum (`sql::operator::Operator`,
absent from src/).  `SetExpression` triples use `Equal`, `Inc` and `Dec`;
`add` and `sub` stand for the many other variants of the enum, which reach
the defensive `unreachable!()` arm of `Document::merge`. -/
inductive Operator where
  | equal
  | inc
  | dec
  | add
  | sub
deriving DecidableEq

/-- Modelled from the spec: the `Data` clause variant (`sql::data::Data`,
absent from src/).  `emptyExpression` and `diffExpression` stand for the
variants outside the five accepted by `Document::merge`, which reach its
defensive `unreachable!()` arm. -/
inductive Data where
  | setExpression (x : List (List String × Operator × Expr))
  | patchExpression (v : List PatchOp)
  | mergeExpression (v : Value)
  | replaceExpression (v : Value)
  | contentExpression (v : Value)
  | emptyExpression
  | diffExpression (v : Value)

/-- Modelled from the spec: the `Statement` variant (`dbs::Statement`, absent
from src/).  `Document::merge` only matches `Create` and `Update`; `select`
and `delete` stand for the other statement kinds, which reach its defensive
`unreachable!()` arm. -/
inductive Statement where
  | create (data : Option Data)
  | update (data : Option Data)
  | select
  | delete

/-- The document: a record's identity together with its `original` (as
loaded) and `current` (mutated in place) slices. -/
structure Document where
  id : Option Value
  original : Value
  current : Value

/-- Modelled from the spec: `Value::def` (absent from src/) — apply field
defaults to the current document using the record identity, ensuring the
system-maintained identity field is present. -/
def applyDef (id : Option Value) (v : Value) : Value :=
  match id with
  | some i => setPath v ["id"] i
  | none => v

/-- Trace events emitted by the instrumented embedding of `Document::merge`:
one event per call the source makes on the current slice (`def`, `set`,
`del`, `increment`, `decrement`, `patch`, `merge`, `replace`). -/
inductive Event where
  | defEv
  | setEv
  | delEv
  | incEv
  | decEv
  | patchEv
  | mergeEv
  | replaceEv
deriving DecidableEq

/-- One arm of the operator match inside the `SetExpression` loop of
`Document::merge` (src/doc/merge.rs lines 36-50): `Equal` with a void value
deletes at the path, `Equal` otherwise sets, `Inc` increments, `Dec`
decrements, and any other operator hits `unreachable!()`, embedded as the
`Error.unreachable` outcome. -/
def applyOp (p : List String) (op : Operator) (v : Value) (c : Value) :
    List Event × Value × Option Error :=
  match op with
  | .equal =>
    match v with
    | .void => ([.delEv], delPath c p, none)
    | _ => ([.setEv], setPath c p v, none)
  | .inc => ([.incEv], setPath c p (incVal (getPath c p) v), none)
  | .dec => ([.decEv], setPath c p (decVal (getPath c p) v), none)
  | _ => ([], c, some .unreachable)

/-- The `SetExpression` triple loop of `Document::merge` (src/doc/merge.rs
lines 33-52): each triple's expression is computed against the in-progress
current state, then applied with `applyOp`; the first failure aborts the
loop. -/
def applySet (ts : List (List String × Operator × Expr)) (c : Value) :
    List Event × Value × Option Error :=
  match ts with
  | [] => ([], c, none)
  | t :: ts =>
    match t.2.2.compute c with
    | .error e => ([], c, some e)
    | .ok v =>
      match applyOp t.1 t.2.1 v c with
      | (evs, c', some e) => (evs, c', some e)
      | (evs, c', none) =>
        let p := applySet ts c'
        (evs ++ p.1, p.2)

/-- The data-clause dispatch of `Document::merge` (src/doc/merge.rs lines
30-62): `SetExpression` runs the triple loop, `PatchExpression` patches,
`MergeExpression` deep-merges, `ReplaceExpression` and `ContentExpression`
both replace the whole body, and any other variant hits `unreachable!()`,
embedded as the `Error.unreachable` outcome. -/
def applyData (d : Data) (c : Value) : List Event × Value × Option Error :=
  match d with
  | .setExpression x => applySet x c
  | .patchExpression v =>
    match applyPatch c v with
    | .ok c' => ([.patchEv], c', none)
    | .error e => ([], c, some e)
  | .mergeExpression v => ([.mergeEv], mergeVals c v, none)
  | .replaceExpression v => ([.replaceEv], v, none)
  | .contentExpression v => ([.replaceEv], v, none)
  | _ => ([], c, some .unreachable)

/-- `Document::merge` (src/doc/merge.rs): extract the data clause from a
`Create` or `Update` statement (any other kind hits `unreachable!()`), apply
field defaults to the current slice, apply the data clause if present, and
apply field defaults again.  The embedding is instrumented with a trace of
the calls made on the current slice and returns the document state reached
together with the first error, mirroring the `&mut self` discipline of the
source. -/
def Document.merge (stm : Statement) (doc : Document) :
    List Event × Document × Option Error :=
  let dataOf : Option (Option Data) :=
    match stm with
    | .create s => some s
    | .update s => some s
    | _ => none
  match dataOf with
  | none => ([], doc, some .unreachable)
  | some data =>
    let doc1 : Document := { doc with current := applyDef doc.id doc.current }
    match data with
    | none =>
      ([.defEv, .defEv], { doc1 with current := applyDef doc1.id doc1.current }, none)
    | some d =>
      let p := applyData d doc1.current
      match p.2.2 with
      | some e => (Event.defEv :: p.1, { doc1 with current := p.2.1 }, some e)
      | none =>
        (Event.defEv :: p.1 ++ [Event.defEv],
          { doc1 with current := applyDef doc1.id p.2.1 }, none)

/-! ## Specification-side restatement of the SetExpression semantics -/

/-- The per-triple semantics in the specification's words: compute the
expression against the in-progress document, then `Equal` with a void result
deletes at the path, `Equal` otherwise sets, `Inc` increments the existing
value with the computed one, `Dec` is the inverse, and any other operator is
an internal-invariant violation.  Used only to compare `applySet` against
the specification (claim C1). -/
def specStep (c : Value) (t : List String × Operator × Expr) : Except Error Value := do
  let v ← t.2.2.compute c
  match t.2.1 with
  | .equal =>
    match v with
    | .void => pure (delPath c t.1)
    | _ => pure (setPath c t.1 v)
  | .inc => pure (setPath c t.1 (incVal (getPath c t.1) v))
  | .dec => pure (setPath c t.1 (decVal (getPath c t.1) v))
  | _ => throw .unreachable

/-- The specification's reading of a whole `SetExpression` clause: the
triples folded over the document state in the order given. -/
def specApplySet (ts : List (List String × Operator × Expr)) (c : Value) :
    Except Error Value :=
  ts.foldlM specStep c

/-- View an instrumented mutation result as `Except`: the first error if one
occurred, otherwise the final current slice. -/
def mergeResToExcept (r : List Event × Value × Option Error) : Except Error Value :=
  match r.2.2 with
  | some e => .error e
  | none => .ok r.2.1

/-! ## Lemmas about the mutation engine -/

/-- The trace component does not influence the `Except` view of a result. -/
theorem mergeResToExcept_pair (evs evs' : List Event) (pr : Value × Option Error) :
    mergeResToExcept (evs, pr) = mergeResToExcept (evs', pr) := rfl

/-- `applyOp` never emits a field-default event. -/
theorem applyOp_no_def (p : List String) (op : Operator) (v c : Value) :
    Event.defEv ∉ (applyOp p op v c).1 := by
  cases op with
  | equal => cases v <;> simp [applyOp]
  | inc => simp [applyOp]
  | dec => simp [applyOp]
  | add => simp [applyOp]
  | sub => simp [applyOp]

/-- The `SetExpression` loop never emits a field-default event. -/
theorem applySet_no_def (ts : List (List String × Operator × Expr)) (c : Value) :
    Event.defEv ∉ (applySet ts c).1 := by
  induction ts generalizing c with
  | nil => simp [applySet]
  | cons t ts ih =>
    simp only [applySet]
    cases h1 : t.2.2.compute c with
    | error e => simp
    | ok v =>
      dsimp only
      have hop := applyOp_no_def t.1 t.2.1 v c
      rcases h2 : applyOp t.1 t.2.1 v c with ⟨evs, c', err⟩
      rw [h2] at hop
      cases err with
      | some e => exact hop
      | none =>
        show Event.defEv ∉ evs ++ (applySet ts c').1
        simp only [List.mem_append, not_or]
        exact ⟨by simpa using hop, ih c'⟩

/-- The data-clause dispatch never emits a field-default event. -/
theorem applyData_no_def (d : Data) (c : Value) :
    Event.defEv ∉ (applyData d c).1 := by
  cases d with
  | setExpression x => exact applySet_no_def x c
  | patchExpression v =>
    cases h : applyPatch c v <;> simp [applyData, h]
  | _ => simp [applyData]

/-- `Document.merge` rewrites only the `current` slice: the `original` slice
and the identity of the resulting document state are those of the input,
for every statement and whether or not the call fails. -/
theorem merge_preserves_rest (stm : Statement) (doc : Document) :
    (Document.merge stm doc).2.1.original = doc.original ∧
    (Document.merge stm doc).2.1.id = doc.id := by
  cases stm with
  | create d =>
    cases d with
    | none => exact ⟨rfl, rfl⟩
    | some dd =>
      cases hp : (applyData dd (applyDef doc.id doc.current)).2.2 <;>
        simp [Document.merge, hp]
  | update d =>
    cases d with
    | none => exact ⟨rfl, rfl⟩
    | some dd =>
      cases hp : (applyData dd (applyDef doc.id doc.current)).2.2 <;>
        simp [Document.merge, hp]
  | select => exact ⟨rfl, rfl⟩
  | delete => exact ⟨rfl, rfl⟩

/-- Prepending trace events to a mutation result does not change its
`Except` view. -/
theorem mergeResToExcept_cont (evs : List Event)
    (r : List Event × Value × Option Error) :
    mergeResToExcept (evs ++ r.1, r.2) = mergeResToExcept r := rfl

/-- Prepending a single trace event to a mutation result does not change its
`Except` view. -/
theorem mergeResToExcept_cons (e : Event)
    (r : List Event × Value × Option Error) :
    mergeResToExcept (e :: r.1, r.2) = mergeResToExcept r := rfl

/-- Claim C1 equivalence lemma: the instrumented `SetExpression` loop of
`Document::merge`, viewed through `Except`, coincides with the
specification's ordered fold of the per-operator semantics. -/
theorem applySet_eq_spec (ts : List (List String × Operator × Expr)) (c : Value) :
    mergeResToExcept (applySet ts c) = specApplySet ts c := by
  induction ts generalizing c with
  | nil => rfl
  | cons t ts ih =>
    simp only [applySet, specApplySet, List.foldlM_cons] at ih ⊢
    cases h1 : t.2.2.compute c with
    | error e =>
      simp [mergeResToExcept, specStep, h1, Bind.bind, Except.bind]
    | ok v =>
      dsimp only
      cases ht : t.2.1 with
      | equal =>
        cases v <;>
          simp [applyOp, ht, specStep, h1, Bind.bind, Except.bind, Pure.pure,
            Except.pure, mergeResToExcept_cons, ih]
      | inc =>
        simp [applyOp, ht, specStep, h1, Bind.bind, Except.bind, Pure.pure,
          Except.pure, mergeResToExcept_cons, ih]
      | dec =>
        simp [applyOp, ht, specStep, h1, Bind.bind, Except.bind, Pure.pure,
          Except.pure, mergeResToExcept_cons, ih]
      | add =>
        simp [applyOp, ht, specStep, h1, Bind.bind, Except.bind, Pure.pure,
          Except.pure, mergeResToExcept]
      | sub =>
        simp [applyOp, ht, specStep, h1, Bind.bind, Except.bind, Pure.pure,
          Except.pure, mergeResToExcept]

/-- Fail-fast lemma for the `SetExpression` loop: once a triple fails,
appending further triples changes neither the trace, the document state, nor
the reported error — the later triples are never executed. -/
theorem applySet_append_of_error (ts ts' : List (List String × Operator × Expr))
    (c : Value) (e : Error) (h : (applySet ts c).2.2 = some e) :
    applySet (ts ++ ts') c = applySet ts c := by
  induction ts generalizing c with
  | nil => simp [applySet] at h
  | cons t ts ih =>
    simp only [List.cons_append, applySet] at h ⊢
    cases h1 : t.2.2.compute c with
    | error err => rfl
    | ok v =>
      rw [h1] at h
      dsimp only at h ⊢
      rcases h2 : applyOp t.1 t.2.1 v c with ⟨evs, c', err⟩
      rw [h2] at h
      cases err with
      | some e' => rfl
      | none =>
        have h3 : (applySet ts c').2.2 = some e := h
        dsimp only
        simp only [List.append_eq]
        rw [ih c' h3]

/-- Any error produced by expression computation is an evaluation error. -/
theorem compute_error_eval (e : Expr) (c : Value) (err : Error)
    (h : e.compute c = .error err) : ∃ m, err = Error.evaluation m := by
  cases e with
  | const v => simp [Expr.compute] at h
  | field p => simp [Expr.compute] at h
  | failing msg =>
    simp [Expr.compute] at h
    exact ⟨msg, h.symm⟩

/-- Any error produced by the patch engine is a `PatchError`. -/
theorem applyPatch_error (ops : List PatchOp) (c : Value) (e : Error)
    (h : applyPatch c ops = .error e) : e = Error.patchError := by
  induction ops generalizing c with
  | nil => simp [applyPatch] at h
  | cons op rest ih =>
    cases op with
    | add p v => exact ih (setPath c p v) (by simpa [applyPatch] using h)
    | remove p => exact ih (delPath c p) (by simpa [applyPatch] using h)
    | change p v => exact ih (setPath c p v) (by simpa [applyPatch] using h)
    | invalid =>
      simp [applyPatch] at h
      exact h.symm

/-- The operator constraint under which the `SetExpression` loop can never
report the defensive `unreachable` outcome. -/
theorem applySet_error_not_unreachable
    (ts : List (List String × Operator × Expr)) (c : Value) (e : Error)
    (hops : ∀ t ∈ ts, t.2.1 = Operator.equal ∨ t.2.1 = Operator.inc ∨
      t.2.1 = Operator.dec)
    (h : (applySet ts c).2.2 = some e) : e ≠ Error.unreachable := by
  induction ts generalizing c with
  | nil => simp [applySet] at h
  | cons t ts ih =>
    simp only [applySet] at h
    cases h1 : t.2.2.compute c with
    | error err =>
      rw [h1] at h
      dsimp only at h
      obtain ⟨m, hm⟩ := compute_error_eval t.2.2 c err h1
      cases h
      simp [hm]
    | ok v =>
      rw [h1] at h
      dsimp only at h
      have hop := hops t (by simp)
      have htail : ∀ t' ∈ ts, t'.2.1 = Operator.equal ∨ t'.2.1 = Operator.inc ∨
          t'.2.1 = Operator.dec := fun t' ht' => hops t' (by simp [ht'])
      rcases hop with hop | hop | hop
      · rw [hop] at h
        cases v <;> simp only [applyOp] at h <;> exact ih _ htail h
      · rw [hop] at h
        simp only [applyOp] at h
        exact ih _ htail h
      · rw [hop] at h
        simp only [applyOp] at h
        exact ih _ htail h

/-! ## Claim theorems about the mutation engine -/

/-- Claim C1: for every document and every `SetExpression` data clause
applied by `Document::merge`, the triples are applied in the order given,
each triple's expression is computed against the in-progress current state,
and the per-operator semantics hold (`Equal` with a void value deletes at
the path, `Equal` otherwise sets, `Inc` increments, `Dec` decrements) —
stated as the equivalence of the source loop with the specification's
ordered fold `specApplySet`; in particular `{a: 1}` under `SET a += 2`
yields `{a: 3}` and `{a: 1}` under `SET a = VOID` yields `{}`. -/
theorem c1_set_expression_semantics :
    (∀ ts c, mergeResToExcept (applySet ts c) = specApplySet ts c) ∧
    (Document.merge
        (.update (some (.setExpression
          [(["a"], Operator.inc, Expr.const (Value.num 2))])))
        ⟨none, .object [("a", .num 1)], .object [("a", .num 1)]⟩).2.1.current
      = Value.object [("a", Value.num 3)] ∧
    (Document.merge
        (.update (some (.setExpression
          [(["a"], Operator.equal, Expr.const Value.void)])))
        ⟨none, .object [("a", .num 1)], .object [("a", .num 1)]⟩).2.1.current
      = Value.object [] :=
  ⟨applySet_eq_spec, rfl, rfl⟩

/-- The trace shape asserted by claim C2: exactly one field-default pass
before and one after the data clause, and none in between. -/
def DefShape (tr : List Event) : Prop :=
  ∃ mid, tr = Event.defEv :: mid ++ [Event.defEv] ∧ Event.defEv ∉ mid

/-- Claim C2: `Document::merge` applies field defaults to the current
document exactly once before and exactly once after the data clause, using
the document's record identity; with no data clause the call performs
nothing beyond the two default passes. -/
theorem c2_default_passes :
    (∀ doc, Document.merge (.create none) doc =
      ([Event.defEv, Event.defEv],
        { doc with current := applyDef doc.id (applyDef doc.id doc.current) },
        none)) ∧
    (∀ doc, Document.merge (.update none) doc =
      ([Event.defEv, Event.defEv],
        { doc with current := applyDef doc.id (applyDef doc.id doc.current) },
        none)) ∧
    (∀ d doc, (Document.merge (.create (some d)) doc).2.2 = none →
      DefShape (Document.merge (.create (some d)) doc).1) ∧
    (∀ d doc, (Document.merge (.update (some d)) doc).2.2 = none →
      DefShape (Document.merge (.update (some d)) doc).1) := by
  refine ⟨fun doc => rfl, fun doc => rfl, ?_, ?_⟩ <;>
  · intro d doc h
    cases hp : (applyData d (applyDef doc.id doc.current)).2.2 with
    | some e => simp [Document.merge, hp] at h
    | none =>
      refine ⟨(applyData d (applyDef doc.id doc.current)).1, ?_, ?_⟩
      · simp [Document.merge, hp]
      · exact applyData_no_def d (applyDef doc.id doc.current)

/-- Witness for claim C2 at a concrete input: a `ContentExpression` update
of an empty document succeeds, and its trace consists of one default pass,
the clause events, and one more default pass. -/
theorem c2_default_passes_witness :
    DefShape (Document.merge
      (.update (some (.contentExpression (Value.object []))))
      ⟨none, Value.void, Value.void⟩).1 :=
  c2_default_passes.2.2.2 (.contentExpression (Value.object []))
    ⟨none, Value.void, Value.void⟩ rfl

/-- Claim C3: `Document::merge` never mutates the document's original slice:
whatever statement is supplied and whether the call succeeds or fails, only
`current` is rewritten — `original` (and the record identity) are equal
before and after the call. -/
theorem c3_original_never_mutated (stm : Statement) (doc : Document) :
    (Document.merge stm doc).2.1.original = doc.original ∧
    (Document.merge stm doc).2.1.id = doc.id :=
  merge_preserves_rest stm doc

/-- Claim C4: the first failure inside `Document::merge` is propagated
upward unchanged, no later triple of a `SetExpression` and no subsequent
default pass is executed (the returned trace ends at the failure), and the
document's original slice is left untouched. -/
theorem c4_fail_fast :
    (∀ ts ts' c e, (applySet ts c).2.2 = some e →
      applySet (ts ++ ts') c = applySet ts c) ∧
    (∀ d doc tr c e,
      applyData d (applyDef doc.id doc.current) = (tr, c, some e) →
      Document.merge (.create (some d)) doc =
        (Event.defEv :: tr, { doc with current := c }, some e)) ∧
    (∀ d doc tr c e,
      applyData d (applyDef doc.id doc.current) = (tr, c, some e) →
      Document.merge (.update (some d)) doc =
        (Event.defEv :: tr, { doc with current := c }, some e)) ∧
    (∀ stm doc, (Document.merge stm doc).2.1.original = doc.original) := by
  refine ⟨applySet_append_of_error, ?_, ?_,
    fun stm doc => (merge_preserves_rest stm doc).1⟩ <;>
  · intro d doc tr c e h
    simp [Document.merge, h]

/-- Witness for claim C4 at a concrete input: a failing triple aborts an
update after the first default pass, propagating the evaluation error with
the original slice untouched. -/
theorem c4_fail_fast_witness :
    Document.merge
      (.update (some (.setExpression [(["a"], Operator.equal, Expr.failing "div")])))
      ⟨none, Value.object [], Value.object []⟩ =
      ([Event.defEv], ⟨none, Value.object [], Value.object []⟩,
        some (Error.evaluation "div")) :=
  c4_fail_fast.2.2.1
    (.setExpression [(["a"], Operator.equal, Expr.failing "div")])
    ⟨none, Value.object [], Value.object []⟩ [] (Value.object [])
    (Error.evaluation "div") rfl

/-- Claim C6: `ReplaceExpression` and `ContentExpression` are applied
identically by `Document::merge` — both replace the entire current body
with the given value — so merging with one yields exactly the same result
as merging with the other. -/
theorem c6_replace_content_equal :
    (∀ v c, applyData (.replaceExpression v) c = applyData (.contentExpression v) c) ∧
    (∀ v c, (applyData (.replaceExpression v) c).2.1 = v) ∧
    (∀ v doc, Document.merge (.create (some (.replaceExpression v))) doc =
      Document.merge (.create (some (.contentExpression v))) doc) ∧
    (∀ v doc, Document.merge (.update (some (.replaceExpression v))) doc =
      Document.merge (.update (some (.contentExpression v))) doc) :=
  ⟨fun _ _ => rfl, fun _ _ => rfl, fun _ _ => rfl, fun _ _ => rfl⟩

/-- The data-clause shapes accepted by `Document::merge`: one of the five
handled variants, and for `SetExpression` only the operators `Equal`,
`Inc`, `Dec`. -/
def DataOk : Data → Prop
  | .setExpression x => ∀ t ∈ x, t.2.1 = Operator.equal ∨
      t.2.1 = Operator.inc ∨ t.2.1 = Operator.dec
  | .emptyExpression => False
  | .diffExpression _ => False
  | _ => True

/-- The precondition of claim C9: the statement is a `Create` or `Update`
whose data clause (if any) has a shape accepted by `Document::merge`. -/
def ValidStm : Statement → Prop
  | .create none => True
  | .create (some d) => DataOk d
  | .update none => True
  | .update (some d) => DataOk d
  | _ => False

/-- Claim C9: a statement kind other than `Create`/`Update`, a data-clause
variant outside the five handled ones, or a `SetExpression` operator outside
`{Equal, Inc, Dec}` reaching the mutation stage is defended with the
`unreachable` assertion outcome and never silently ignored; under the
precondition `ValidStm` these defensive branches are unreachable: no
`unreachable` outcome can be produced. -/
theorem c9_defensive_unreachable :
    (∀ doc, Document.merge .select doc = ([], doc, some .unreachable)) ∧
    (∀ doc, Document.merge .delete doc = ([], doc, some .unreachable)) ∧
    (∀ doc, (Document.merge (.create (some .emptyExpression)) doc).2.2 =
      some .unreachable) ∧
    (∀ doc v, (Document.merge (.update (some (.diffExpression v))) doc).2.2 =
      some .unreachable) ∧
    (∀ p op v c, op ≠ Operator.equal → op ≠ Operator.inc → op ≠ Operator.dec →
      applyOp p op v c = ([], c, some .unreachable)) ∧
    (∀ stm doc e, ValidStm stm → (Document.merge stm doc).2.2 = some e →
      e ≠ Error.unreachable) := by
  refine ⟨fun doc => rfl, fun doc => rfl, fun doc => rfl, fun doc v => rfl,
    ?_, ?_⟩
  · intro p op v c h1 h2 h3
    cases op with
    | equal => exact absurd rfl h1
    | inc => exact absurd rfl h2
    | dec => exact absurd rfl h3
    | add => rfl
    | sub => rfl
  · intro stm doc e hv h
    have main : ∀ d, DataOk d →
        (applyData d (applyDef doc.id doc.current)).2.2 = some e →
        e ≠ Error.unreachable := by
      intro d hd hda
      cases d with
      | setExpression x =>
        exact applySet_error_not_unreachable x _ e hd hda
      | patchExpression v =>
        revert hda
        cases hp : applyPatch (applyDef doc.id doc.current) v with
        | ok c' => intro hda; simp [applyData, hp] at hda
        | error e' =>
          intro hda
          simp [applyData, hp] at hda
          rw [← hda]
          rw [applyPatch_error v _ e' hp]
          simp
      | mergeExpression v => simp [applyData] at hda
      | replaceExpression v => simp [applyData] at hda
      | contentExpression v => simp [applyData] at hda
      | emptyExpression => exact absurd hd id
      | diffExpression v => exact absurd hd id
    cases stm with
    | select => exact absurd hv id
    | delete => exact absurd hv id
    | create d =>
      cases d with
      | none => simp [Document.merge] at h
      | some dd =>
        cases hp : (applyData dd (applyDef doc.id doc.current)).2.2 with
        | none => simp [Document.merge, hp] at h
        | some e' =>
          have he : e = e' := by simp [Document.merge, hp] at h; exact h.symm
          subst he
          exact main dd hv hp
    | update d =>
      cases d with
      | none => simp [Document.merge] at h
      | some dd =>
        cases hp : (applyData dd (applyDef doc.id doc.current)).2.2 with
        | none => simp [Document.merge, hp] at h
        | some e' =>
          have he : e = e' := by simp [Document.merge, hp] at h; exact h.symm
          subst he
          exact main dd hv hp

/-- Witness for claim C9 at concrete inputs: a non-`Create`/`Update`
statement is rejected with the defensive outcome, a disallowed operator is
rejected with the defensive outcome, and a valid update never reports it. -/
theorem c9_defensive_unreachable_witness :
    Document.merge .select ⟨none, Value.void, Value.void⟩ =
      ([], ⟨none, Value.void, Value.void⟩, some .unreachable) ∧
    applyOp ["a"] Operator.add Value.void Value.void =
      ([], Value.void, some .unreachable) ∧
    ((Error.evaluation "div") ≠ Error.unreachable) :=
  ⟨c9_defensive_unreachable.1 ⟨none, Value.void, Value.void⟩,
   c9_defensive_unreachable.2.2.2.2.1 ["a"] Operator.add Value.void Value.void
     (by decide) (by decide) (by decide),
   c9_defensive_unreachable.2.2.2.2.2
     (.update (some (.setExpression [(["a"], Operator.equal, Expr.failing "div")])))
     ⟨none, Value.object [], Value.object []⟩ (Error.evaluation "div")
     (fun t ht => by simp at ht; simp [ht]) rfl⟩

/-! ## The SELECT statement grammar (src/sql/statements/select.rs)

The combinators mirror the nom combinators used by the source
(`tag_no_case`, `opt`, `preceded`) and the collaborating sub-parsers
(`shouldbespace`, `fields`, `selects` and the clause grammars), which are
absent from src/ and modelled from the spec; input is a list of characters
and a parser returns the remaining input and the parsed value. -/

/-- A raw token of the modelled sub-grammars. -/
abbrev Tok := List Char

/-- Modelled from the spec: the characters admitted in the simplified
expression/target/clause-payload tokens (identifier characters plus the
`*`, `:`, `$`, `.`, `_` used by the spec's examples). -/
def isTokChar (c : Char) : Bool :=
  c.isAlpha || c.isDigit || c == '*' || c == ':' || c == '$' || c == '.' || c == '_'

/-- Modelled from the spec: a maximal nonempty run of token characters. -/
def token (i : List Char) : Option (List Char × Tok) :=
  match i.takeWhile isTokChar with
  | [] => none
  | t => some (i.dropWhile isTokChar, t)

/-- The nom `tag_no_case` combinator: consume exactly the tag, compared
case-insensitively. -/
def tagNoCase (t : List Char) (i : List Char) : Option (List Char × Unit) :=
  if (i.take t.length).map Char.toLower = t.map Char.toLower then
    some (i.drop t.length, ())
  else
    none

/-- Modelled from the spec: `shouldbespace` (`sql::comment`, absent from
src/) — one or more spaces. -/
def shouldbespace (i : List Char) : Option (List Char × Unit) :=
  match i.takeWhile (fun c => c == ' ') with
  | [] => none
  | _ => some (i.dropWhile (fun c => c == ' '), ())

/-- The numeric value of a decimal digit character. -/
def charToDigit (c : Char) : Nat := c.toNat - 48

/-- The numeric value of a big-endian digit-character run. -/
def natFromDigits (ds : List Char) : Nat :=
  ds.foldl (fun a c => 10 * a + charToDigit c) 0

/-- Modelled from the spec: a decimal natural-number token, as used by the
`LIMIT` and `START` clause grammars. -/
def pnat (i : List Char) : Option (List Char × Nat) :=
  match i.takeWhile Char.isDigit with
  | [] => none
  | ds => some (i.dropWhile Char.isDigit, natFromDigits ds)

/-- The character of a decimal digit. -/
def dChar (d : Nat) : Char :=
  match d with
  | 0 => '0' | 1 => '1' | 2 => '2' | 3 => '3' | 4 => '4'
  | 5 => '5' | 6 => '6' | 7 => '7' | 8 => '8' | _ => '9'

/-- The canonical decimal rendering of a natural number. -/
def natToChars (n : Nat) : List Char :=
  if n = 0 then ['0'] else ((Nat.digits 10 n).map dChar).reverse

/-- Modelled from the spec: the tail of a comma-separated token list —
repeatedly consume `", "` followed by a token.  The fuel argument bounds
the recursion by the input length (each step consumes at least three
characters). -/
def selectsMore (fuel : Nat) (i : List Char) : List Char × List Tok :=
  match fuel with
  | 0 => (i, [])
  | fuel + 1 =>
    match i with
    | ',' :: ' ' :: rest =>
      match token rest with
      | some (r, t) =>
        let p := selectsMore fuel r
        (p.1, t :: p.2)
      | none => (i, [])
    | _ => (i, [])

/-- Modelled from the spec: `selects` (`sql::value`, absent from src/) —
one or more comma-separated target tokens. -/
def selects (i : List Char) : Option (List Char × List Tok) :=
  match token i with
  | some (r, t) =>
    let p := selectsMore r.length r
    some (p.1, t :: p.2)
  | none => none

/-- Modelled from the spec: `fields` (`sql::field`, absent from src/) —
one or more comma-separated projection tokens. -/
def fields (i : List Char) : Option (List Char × List Tok) :=
  selects i

/-- The clause keywords, canonically upper-case. -/
def kwSELECT : List Char := ['S', 'E', 'L', 'E', 'C', 'T']

/-- The `FROM` keyword. -/
def kwFROM : List Char := ['F', 'R', 'O', 'M']

/-- The `WHERE` keyword of the modelled `cond` grammar. -/
def kwWHERE : List Char := ['W', 'H', 'E', 'R', 'E']

/-- The `SPLIT ON` keyword of the modelled `split` grammar. -/
def kwSPLIT : List Char := ['S', 'P', 'L', 'I', 'T', ' ', 'O', 'N']

/-- The `GROUP BY` keyword of the modelled `group` grammar. -/
def kwGROUP : List Char := ['G', 'R', 'O', 'U', 'P', ' ', 'B', 'Y']

/-- The `ORDER BY` keyword of the modelled `order` grammar. -/
def kwORDER : List Char := ['O', 'R', 'D', 'E', 'R', ' ', 'B', 'Y']

/-- The `LIMIT` keyword of the modelled `limit` grammar. -/
def kwLIMIT : List Char := ['L', 'I', 'M', 'I', 'T']

/-- The `START` keyword of the modelled `start` grammar. -/
def kwSTART : List Char := ['S', 'T', 'A', 'R', 'T']

/-- The `FETCH` keyword of the modelled `fetch` grammar. -/
def kwFETCH : List Char := ['F', 'E', 'T', 'C', 'H']

/-- The `VERSION` keyword of the modelled `version` grammar. -/
def kwVERSION : List Char := ['V', 'E', 'R', 'S', 'I', 'O', 'N']

/-- The `TIMEOUT` keyword of the modelled `timeout` grammar. -/
def kwTIMEOUT : List Char := ['T', 'I', 'M', 'E', 'O', 'U', 'T']

/-- A clause grammar of the shape keyword-space-token. -/
def kwTok (kw : List Char) (i : List Char) : Option (List Char × Tok) :=
  match tagNoCase kw i with
  | none => none
  | some (r, _) =>
    match shouldbespace r with
    | none => none
    | some (r2, _) => token r2

/-- A clause grammar of the shape keyword-space-number. -/
def kwNat (kw : List Char) (i : List Char) : Option (List Char × Nat) :=
  match tagNoCase kw i with
  | none => none
  | some (r, _) =>
    match shouldbespace r with
    | none => none
    | some (r2, _) => pnat r2

/-- The `WHERE` clause payload (`sql::cond::Cond`). -/
structure Cond where
  v : Tok
deriving DecidableEq

/-- The `SPLIT ON` clause payload (`sql::split::Splits`). -/
structure Splits where
  v : Tok
deriving DecidableEq

/-- The `GROUP BY` clause payload (`sql::group::Groups`). -/
structure Groups where
  v : Tok
deriving DecidableEq

/-- The `ORDER BY` clause payload (`sql::order::Orders`). -/
structure Orders where
  v : Tok
deriving DecidableEq

/-- The `LIMIT` clause payload (`sql::limit::Limit`, a `usize`). -/
structure Limit where
  v : Nat
deriving DecidableEq

/-- The `START` clause payload (`sql::start::Start`, a `usize`). -/
structure Start where
  v : Nat
deriving DecidableEq

/-- The `FETCH` clause payload (`sql::fetch::Fetchs`). -/
structure Fetchs where
  v : Tok
deriving DecidableEq

/-- The `VERSION` clause payload (`sql::version::Version`). -/
structure Version where
  v : Tok
deriving DecidableEq

/-- The `TIMEOUT` clause payload (`sql::timeout::Timeout`). -/
structure Timeout where
  v : Tok
deriving DecidableEq

/-- `SelectStatement` (src/sql/statements/select.rs lines 27-49): the
projection and target lists plus the nine optional clauses. -/
structure SelectStatement where
  expr : List Tok
  what : List Tok
  cond : Option Cond
  split : Option Splits
  group : Option Groups
  order : Option Orders
  limit : Option Limit
  start : Option Start
  fetch : Option Fetchs
  version : Option Version
  timeout : Option Timeout
deriving DecidableEq

/-- Modelled from the spec: the `cond` sub-parser (named `cond'` because
core Lean already has a `cond`). -/
def cond' (i : List Char) : Option (List Char × Cond) :=
  (kwTok kwWHERE i).map (fun p => (p.1, ⟨p.2⟩))

/-- Modelled from the spec: the `split` sub-parser. -/
def split (i : List Char) : Option (List Char × Splits) :=
  (kwTok kwSPLIT i).map (fun p => (p.1, ⟨p.2⟩))

/-- Modelled from the spec: the `group` sub-parser. -/
def group (i : List Char) : Option (List Char × Groups) :=
  (kwTok kwGROUP i).map (fun p => (p.1, ⟨p.2⟩))

/-- Modelled from the spec: the `order` sub-parser. -/
def order (i : List Char) : Option (List Char × Orders) :=
  (kwTok kwORDER i).map (fun p => (p.1, ⟨p.2⟩))

/-- Modelled from the spec: the `limit` sub-parser. -/
def limit (i : List Char) : Option (List Char × Limit) :=
  (kwNat kwLIMIT i).map (fun p => (p.1, ⟨p.2⟩))

/-- Modelled from the spec: the `start` sub-parser. -/
def start (i : List Char) : Option (List Char × Start) :=
  (kwNat kwSTART i).map (fun p => (p.1, ⟨p.2⟩))

/-- Modelled from the spec: the `fetch` sub-parser. -/
def fetch (i : List Char) : Option (List Char × Fetchs) :=
  (kwTok kwFETCH i).map (fun p => (p.1, ⟨p.2⟩))

/-- Modelled from the spec: the `version` sub-parser. -/
def version (i : List Char) : Option (List Char × Version) :=
  (kwTok kwVERSION i).map (fun p => (p.1, ⟨p.2⟩))

/-- Modelled from the spec: the `timeout` sub-parser. -/
def timeout (i : List Char) : Option (List Char × Timeout) :=
  (kwTok kwTIMEOUT i).map (fun p => (p.1, ⟨p.2⟩))

/-- The nom `opt` combinator: an always-succeeding optional parse. -/
def popt {α : Type} (p : List Char → Option (List Char × α)) (i : List Char) :
    List Char × Option α :=
  match p i with
  | some (r, v) => (r, some v)
  | none => (i, none)

/-- The nom `preceded` combinator, specialised to a space prefix. -/
def preceded {α : Type} (sp : List Char → Option (List Char × Unit))
    (p : List Char → Option (List Char × α)) (i : List Char) :
    Option (List Char × α) :=
  match sp i with
  | none => none
  | some (r, _) => p r

/-- The `select` parser (src/sql/statements/select.rs lines 138-171):
`SELECT`, projection fields, `FROM`, targets, then the nine optional
clauses, each preceded by whitespace, in this fixed order. -/
def select (i : List Char) : Option (List Char × SelectStatement) :=
  match tagNoCase kwSELECT i with
  | none => none
  | some (i, _) =>
  match shouldbespace i with
  | none => none
  | some (i, _) =>
  match fields i with
  | none => none
  | some (i, expr) =>
  match shouldbespace i with
  | none => none
  | some (i, _) =>
  match tagNoCase kwFROM i with
  | none => none
  | some (i, _) =>
  match shouldbespace i with
  | none => none
  | some (i, _) =>
  match selects i with
  | none => none
  | some (i, what) =>
  let pc := popt (preceded shouldbespace cond') i
  let ps := popt (preceded shouldbespace split) pc.1
  let pg := popt (preceded shouldbespace group) ps.1
  let po := popt (preceded shouldbespace order) pg.1
  let pl := popt (preceded shouldbespace limit) po.1
  let pt := popt (preceded shouldbespace start) pl.1
  let pf := popt (preceded shouldbespace fetch) pt.1
  let pv := popt (preceded shouldbespace version) pf.1
  let pm := popt (preceded shouldbespace timeout) pv.1
  some (pm.1,
    ⟨expr, what, pc.2, ps.2, pg.2, po.2, pl.2, pt.2, pf.2, pv.2, pm.2⟩)

/-! ## Display for SELECT statements -/

/-- The rendering of the tail of a comma-separated token list. -/
def renderTail (ts : List Tok) : List Char :=
  match ts with
  | [] => []
  | t :: ts => ',' :: ' ' :: (t ++ renderTail ts)

/-- Modelled from the spec: the `Display` of a token list (`Fields` and
`Values` join their elements with a comma and a space). -/
def commaJoin (ts : List Tok) : List Char :=
  match ts with
  | [] => []
  | t :: ts => t ++ renderTail ts

/-- Modelled from the spec: the `Display` of a `WHERE` clause. -/
def Cond.fmt (c : Cond) : List Char := kwWHERE ++ ' ' :: c.v

/-- Modelled from the spec: the `Display` of a `SPLIT ON` clause. -/
def Splits.fmt (c : Splits) : List Char := kwSPLIT ++ ' ' :: c.v

/-- Modelled from the spec: the `Display` of a `GROUP BY` clause. -/
def Groups.fmt (c : Groups) : List Char := kwGROUP ++ ' ' :: c.v

/-- Modelled from the spec: the `Display` of an `ORDER BY` clause. -/
def Orders.fmt (c : Orders) : List Char := kwORDER ++ ' ' :: c.v

/-- Modelled from the spec: the `Display` of a `LIMIT` clause. -/
def Limit.fmt (c : Limit) : List Char := kwLIMIT ++ ' ' :: natToChars c.v

/-- Modelled from the spec: the `Display` of a `START` clause. -/
def Start.fmt (c : Start) : List Char := kwSTART ++ ' ' :: natToChars c.v

/-- Modelled from the spec: the `Display` of a `FETCH` clause. -/
def Fetchs.fmt (c : Fetchs) : List Char := kwFETCH ++ ' ' :: c.v

/-- Modelled from the spec: the `Display` of a `VERSION` clause. -/
def Version.fmt (c : Version) : List Char := kwVERSION ++ ' ' :: c.v

/-- Modelled from the spec: the `Display` of a `TIMEOUT` clause. -/
def Timeout.fmt (c : Timeout) : List Char := kwTIMEOUT ++ ' ' :: c.v

/-- One optional clause of the `Display` implementation: a space followed by
the clause when present, nothing otherwise (the `write!(f, " {}", v)` calls
of src/sql/statements/select.rs lines 107-133). -/
def fmtOpt {α : Type} (f : α → List Char) (o : Option α) : List Char :=
  match o with
  | some v => ' ' :: f v
  | none => []

/-- The rendering of the clause suffix after the `TIMEOUT` clause: empty. -/
def fmtTail12 (_s : SelectStatement) : List Char := []

/-- The rendering of the clause suffix from the `TIMEOUT` clause on. -/
def fmtTail11 (s : SelectStatement) : List Char :=
  fmtOpt Timeout.fmt s.timeout ++ fmtTail12 s

/-- The rendering of the clause suffix from the `VERSION` clause on. -/
def fmtTail10 (s : SelectStatement) : List Char :=
  fmtOpt Version.fmt s.version ++ fmtTail11 s

/-- The rendering of the clause suffix from the `FETCH` clause on. -/
def fmtTail9 (s : SelectStatement) : List Char :=
  fmtOpt Fetchs.fmt s.fetch ++ fmtTail10 s

/-- The rendering of the clause suffix from the `START` clause on. -/
def fmtTail8 (s : SelectStatement) : List Char :=
  fmtOpt Start.fmt s.start ++ fmtTail9 s

/-- The rendering of the clause suffix from the `LIMIT` clause on. -/
def fmtTail7 (s : SelectStatement) : List Char :=
  fmtOpt Limit.fmt s.limit ++ fmtTail8 s

/-- The rendering of the clause suffix from the `ORDER BY` clause on. -/
def fmtTail6 (s : SelectStatement) : List Char :=
  fmtOpt Orders.fmt s.order ++ fmtTail7 s

/-- The rendering of the clause suffix from the `GROUP BY` clause on. -/
def fmtTail5 (s : SelectStatement) : List Char :=
  fmtOpt Groups.fmt s.group ++ fmtTail6 s

/-- The rendering of the clause suffix from the `SPLIT ON` clause on. -/
def fmtTail4 (s : SelectStatement) : List Char :=
  fmtOpt Splits.fmt s.split ++ fmtTail5 s

/-- The rendering of the whole optional-clause suffix, starting with the
`WHERE` clause. -/
def fmtTail3 (s : SelectStatement) : List Char :=
  fmtOpt Cond.fmt s.cond ++ fmtTail4 s

/-- The `Display` implementation for `SelectStatement`
(src/sql/statements/select.rs lines 104-136): `SELECT {expr} FROM {what}`
followed by each present clause, in the fixed clause order, each preceded
by a single space. -/
def fmtSelect (s : SelectStatement) : List Char :=
  kwSELECT ++ ' ' :: (commaJoin s.expr ++
    ' ' :: (kwFROM ++ ' ' :: (commaJoin s.what ++ fmtTail3 s)))

/-! ## The limit and start accessors and the start/limit shaping stage -/

/-- `SelectStatement::limit` (src/sql/statements/select.rs lines 52-57,
renamed `limit'` because the structure field keeps the source field name):
the limit value, `0` when the `LIMIT` clause is absent. -/
def SelectStatement.limit' (s : SelectStatement) : Nat :=
  match s.limit with
  | some l => l.v
  | none => 0

/-- `SelectStatement::start` (src/sql/statements/select.rs lines 58-63,
renamed `start'` because the structure field keeps the source field name):
the start value, `0` when the `START` clause is absent. -/
def SelectStatement.start' (s : SelectStatement) : Nat :=
  match s.start with
  | some l => l.v
  | none => 0

/-- Modelled from the spec: the Result Shaper's start/limit stage (part of
`Iterator::output`, absent from src/) — apply the start offset, then the
limit count, where a limit of zero is the "unlimited" sentinel. -/
def applyStartLimit (st lim : Nat) (rows : List Value) : List Value :=
  let r := rows.drop st
  if lim = 0 then r else r.take lim

/-! ## The SELECT compute entry point -/

/-- Modelled from the spec: the permission `Level` lattice (absent from
src/); `SelectStatement::compute` checks `Level::No`. -/
inductive Level where
  | no
  | kv
  | ns
  | db
  | table
deriving DecidableEq

/-- Modelled from the spec: the `Options` collaborator (absent from src/) —
a permission oracle plus the "futures enabled" evaluation-mode flag. -/
structure Options where
  allow : Level → Bool
  futuresEnabled : Bool

/-- Modelled from the spec: `Options::check(required-level)` — ok when the
permission oracle allows the level, a `Permission` error otherwise. -/
def Options.check (o : Options) (l : Level) : Except Error Unit :=
  if o.allow l then .ok () else .error .permission

/-- Modelled from the spec: `Options::futures(enabled)` — a pure transform
producing a derived `Options` value. -/
def Options.futures (o : Options) (b : Bool) : Options :=
  { o with futuresEnabled := b }

/-- Modelled from the spec: the `Iterator` working set (absent from src/) —
the statement configuration wired in by `compute` plus the prepared source
entries, in preparation order. -/
structure Iterator where
  stmt : Option SelectStatement
  split : Option Splits
  group : Option Groups
  order : Option Orders
  limit : Option Limit
  start : Option Start
  prepared : List Value

/-- Modelled from the spec: `Iterator::new()`. -/
def Iterator.new : Iterator := ⟨none, none, none, none, none, none, []⟩

/-- Modelled from the spec: `Iterator::prepare` registers one source target
without resolving it; never fails. -/
def Iterator.prepare (it : Iterator) (v : Value) : Iterator :=
  { it with prepared := it.prepared ++ [v] }

/-- Trace events of the instrumented `SelectStatement::compute` embedding:
the permission check, iterator creation, each target computation, each
preparation, and the output call. -/
inductive CEvent where
  | checked
  | iterCreated
  | targetComputed
  | prepared
  | output
deriving DecidableEq

/-- The target loop of `SelectStatement::compute`
(src/sql/statements/select.rs lines 89-98): compute each `what` entry with
the evaluator and prepare the resulting value (every arm of the source's
match on the value kind calls `prepare`); the first evaluation failure
aborts the loop. -/
def computeWhat (evalW : Options → Tok → Except Error Value) (o : Options) :
    List Tok → Iterator → List CEvent × Except Error Iterator
  | [], it => ([], .ok it)
  | w :: ws, it =>
    match evalW o w with
    | .error e => ([CEvent.targetComputed], .error e)
    | .ok v =>
      let it :=
        match v with
        | .table _ => it.prepare v
        | .thing _ => it.prepare v
        | .model _ => it.prepare v
        | .array _ => it.prepare v
        | v => it.prepare v
      let p := computeWhat evalW o ws it
      (CEvent.targetComputed :: CEvent.prepared :: p.1, p.2)

/-- `SelectStatement::compute` (src/sql/statements/select.rs lines 67-101):
check permissions at `Level::No`, create an iterator, wire in the statement
configuration, enable futures, compute and prepare each select target, and
output the results.  The embedding is instrumented with a trace of these
stages and abstracts the expression evaluator and the iterator output over
oracles. -/
def SelectStatement.compute (s : SelectStatement) (o : Options)
    (evalW : Options → Tok → Except Error Value)
    (outputFn : Iterator → Options → Except Error Value) :
    List CEvent × Except Error Value :=
  match Options.check o Level.no with
  | .error e => ([CEvent.checked], .error e)
  | .ok _ =>
    let it : Iterator :=
      { Iterator.new with
          stmt := some s, split := s.split, group := s.group,
          order := s.order, limit := s.limit, start := s.start }
    let o := o.futures true
    let p := computeWhat evalW o s.what it
    match p.2 with
    | .error e => (CEvent.checked :: CEvent.iterCreated :: p.1, .error e)
    | .ok it =>
      (CEvent.checked :: CEvent.iterCreated :: p.1 ++ [CEvent.output],
        outputFn it o)

/-! ## Claim theorems about compute, shaping and the accessors -/

/-- Claim C7: `SelectStatement::compute` performs the permission check as
its first action; when the check fails it returns the `Permission` error
with no iterator created, no target computed, no source prepared and no
output produced (the trace holds the check event only). -/
theorem c7_permission_check_first :
    (∀ s o evalW outputFn,
      ((SelectStatement.compute s o evalW outputFn).1).head? =
        some CEvent.checked) ∧
    (∀ s o evalW outputFn, o.allow Level.no = false →
      SelectStatement.compute s o evalW outputFn =
        ([CEvent.checked], .error Error.permission)) := by
  constructor
  · intro s o evalW outputFn
    by_cases h : o.allow Level.no
    · cases hp : (computeWhat evalW (o.futures true) s.what
        { Iterator.new with
            stmt := some s, split := s.split, group := s.group,
            order := s.order, limit := s.limit, start := s.start }).2 <;>
        simp [SelectStatement.compute, Options.check, h, hp]
    · simp [SelectStatement.compute, Options.check, h]
  · intro s o evalW outputFn h
    simp [SelectStatement.compute, Options.check, h]

/-- Witness for claim C7 at a concrete input: an all-denying permission
oracle makes compute return the permission error with a check-only trace. -/
theorem c7_permission_check_first_witness :
    SelectStatement.compute
      ⟨[['*']], [['t']], none, none, none, none, none, none, none, none, none⟩
      ⟨fun _ => false, false⟩
      (fun _ _ => .ok Value.void) (fun _ _ => .ok Value.void) =
      ([CEvent.checked], .error Error.permission) :=
  c7_permission_check_first.2
    ⟨[['*']], [['t']], none, none, none, none, none, none, none, none, none⟩
    ⟨fun _ => false, false⟩
    (fun _ _ => .ok Value.void) (fun _ _ => .ok Value.void) rfl

/-- Claim C8: the shaper applies the start offset and then the limit count;
`start = N` with `limit = 0` (the unlimited sentinel) returns every row
from offset `N` to the end, and a start beyond the sequence length yields
an empty result rather than an error. -/
theorem c8_start_then_limit :
    (∀ (rows : List Value) n, applyStartLimit n 0 rows = rows.drop n) ∧
    (∀ (rows : List Value) n l, 0 < l →
      applyStartLimit n l rows = (rows.drop n).take l) ∧
    (∀ (rows : List Value) n l, rows.length ≤ n →
      applyStartLimit n l rows = []) := by
  refine ⟨fun rows n => by simp [applyStartLimit], ?_, ?_⟩
  · intro rows n l h
    have : l ≠ 0 := by omega
    simp [applyStartLimit, this]
  · intro rows n l h
    have hd : rows.drop n = [] := List.drop_eq_nil_of_le h
    simp [applyStartLimit, hd]

/-- Witness for claim C8 at concrete inputs: a positive limit takes after
dropping, and a start beyond the length yields the empty sequence. -/
theorem c8_start_then_limit_witness :
    applyStartLimit 1 2 [Value.num 1, Value.num 2, Value.num 3] =
      [Value.num 2, Value.num 3] ∧
    applyStartLimit 5 3 [Value.void] = [] :=
  ⟨(c8_start_then_limit.2.1 [Value.num 1, Value.num 2, Value.num 3] 1 2
      (by decide)).trans rfl,
   c8_start_then_limit.2.2 [Value.void] 5 3 (by decide)⟩

/-- Claim C10: the `limit()` accessor returns `0` when the LIMIT clause is
absent and the `start()` accessor returns `0` when the START clause is
absent, so at this interface an absent clause is indistinguishable from an
explicit clause carrying `0`. -/
theorem c10_absent_clause_sentinel (s : SelectStatement) :
    (s.limit = none → s.limit' = 0) ∧
    (s.start = none → s.start' = 0) ∧
    ({ s with limit := some ⟨0⟩ } : SelectStatement).limit' =
      ({ s with limit := none } : SelectStatement).limit' ∧
    ({ s with start := some ⟨0⟩ } : SelectStatement).start' =
      ({ s with start := none } : SelectStatement).start' := by
  refine ⟨?_, ?_, rfl, rfl⟩ <;> intro h <;>
    simp [SelectStatement.limit', SelectStatement.start', h]

/-- Witness for claim C10 at a concrete statement with no LIMIT or START
clause: both accessors return the sentinel `0`. -/
theorem c10_absent_clause_sentinel_witness :
    SelectStatement.limit'
      ⟨[['*']], [['t']], none, none, none, none, none, none, none, none, none⟩ = 0 ∧
    SelectStatement.start'
      ⟨[['*']], [['t']], none, none, none, none, none, none, none, none, none⟩ = 0 :=
  ⟨(c10_absent_clause_sentinel
      ⟨[['*']], [['t']], none, none, none, none, none, none, none, none, none⟩).1 rfl,
   (c10_absent_clause_sentinel
      ⟨[['*']], [['t']], none, none, none, none, none, none, none, none, none⟩).2.1 rfl⟩

/-! ## Round-trip infrastructure for the SELECT grammar -/

/-- A valid token: nonempty and made of token characters only. -/
def TokValid (t : Tok) : Prop := t ≠ [] ∧ ∀ c ∈ t, isTokChar c = true

/-- A valid token list: nonempty with valid members. -/
def ToksValid (ts : List Tok) : Prop := ts ≠ [] ∧ ∀ t ∈ ts, TokValid t

/-- Validity of an optional clause payload. -/
def OptValid {α : Type} (f : α → Prop) : Option α → Prop
  | some v => f v
  | none => True

/-- The invariant a parsed `SelectStatement` satisfies: every token stored
in it came from the token sub-grammar. -/
def StValid (s : SelectStatement) : Prop :=
  ToksValid s.expr ∧ ToksValid s.what ∧
  OptValid (fun c : Cond => TokValid c.v) s.cond ∧
  OptValid (fun c : Splits => TokValid c.v) s.split ∧
  OptValid (fun c : Groups => TokValid c.v) s.group ∧
  OptValid (fun c : Orders => TokValid c.v) s.order ∧
  OptValid (fun c : Fetchs => TokValid c.v) s.fetch ∧
  OptValid (fun c : Version => TokValid c.v) s.version ∧
  OptValid (fun c : Timeout => TokValid c.v) s.timeout

/-- Input whose first character (if any) is not a token character. -/
def Boundary (l : List Char) : Prop :=
  ∀ c, l.head? = some c → isTokChar c = false

/-- Input whose first character (if any) neither continues a token nor
starts a comma separator. -/
def SepBoundary (l : List Char) : Prop :=
  ∀ c, l.head? = some c → isTokChar c = false ∧ c ≠ ','

/-- `takeWhile`/`dropWhile` split an append at a boundary. -/
theorem takeWhile_dropWhile_append (p : Char → Bool) (t rest : List Char)
    (h1 : ∀ c ∈ t, p c = true) (h2 : ∀ c, rest.head? = some c → p c = false) :
    (t ++ rest).takeWhile p = t ∧ (t ++ rest).dropWhile p = rest := by
  induction t with
  | nil =>
    simp only [List.nil_append]
    cases rest with
    | nil => simp
    | cons c r => simp [List.takeWhile_cons, List.dropWhile_cons, h2 c rfl]
  | cons a t ih =>
    have ha : p a = true := h1 a (by simp)
    have iht := ih (fun c hc => h1 c (by simp [hc]))
    simp [List.takeWhile_cons, List.dropWhile_cons, ha, iht.1, iht.2]

/-- Parsing a valid token at the head of an input that continues with a
boundary. -/
theorem token_append (t rest : List Char) (ht : TokValid t) (hb : Boundary rest) :
    token (t ++ rest) = some (rest, t) := by
  obtain ⟨htw, hdw⟩ := takeWhile_dropWhile_append isTokChar t rest ht.2 hb
  obtain ⟨a, t', rfl⟩ := List.exists_cons_of_ne_nil ht.1
  simp only [List.cons_append] at htw hdw
  simp [token, htw, hdw]

/-- Inversion for the token parser. -/
theorem token_inv (i r : List Char) (t : Tok) (h : token i = some (r, t)) :
    t = i.takeWhile isTokChar ∧ r = i.dropWhile isTokChar ∧ t ≠ [] := by
  unfold token at h
  cases htw : i.takeWhile isTokChar with
  | nil => rw [htw] at h; cases h
  | cons a l =>
    rw [htw] at h
    cases h
    simp

/-- Membership in `takeWhile` satisfies the predicate. -/
theorem mem_takeWhile_pred (p : Char → Bool) :
    ∀ (l : List Char) (c : Char), c ∈ l.takeWhile p → p c = true := by
  intro l
  induction l with
  | nil => intro c hc; simp [List.takeWhile] at hc
  | cons a l ih =>
    intro c hc
    by_cases ha : p a
    · rw [List.takeWhile_cons_of_pos ha] at hc
      rcases List.mem_cons.mp hc with rfl | hc
      · exact ha
      · exact ih c hc
    · rw [List.takeWhile_cons_of_neg ha] at hc
      simp at hc

/-- A parsed token is valid. -/
theorem token_valid (i r : List Char) (t : Tok) (h : token i = some (r, t)) :
    TokValid t := by
  obtain ⟨rfl, _, hne⟩ := token_inv i r t h
  exact ⟨hne, fun c hc => mem_takeWhile_pred isTokChar i c hc⟩

/-- `tag_no_case` accepts its own tag (and leaves the rest untouched). -/
theorem tag_self (kw rest : List Char) :
    tagNoCase kw (kw ++ rest) = some (rest, ()) := by
  simp [tagNoCase, List.take_left, List.drop_left]

/-- `tag_no_case` rejects any input whose first two characters mismatch the
tag case-insensitively. -/
theorem tag_fail_two (kw : List Char) (c1 c2 : Char) (rest : List Char)
    (h2 : 2 ≤ kw.length)
    (hm : (kw.take 2).map Char.toLower ≠ [c1.toLower, c2.toLower]) :
    tagNoCase kw (c1 :: c2 :: rest) = none := by
  unfold tagNoCase
  rw [if_neg]
  intro heq
  apply hm
  have h1 := congrArg (List.take 2) heq
  rw [← List.map_take, ← List.map_take, List.take_take,
    Nat.min_eq_left h2] at h1
  have ht : List.take 2 (c1 :: c2 :: rest) = [c1, c2] := rfl
  rw [ht] at h1
  simpa using h1.symm

/-- `shouldbespace` consumes exactly one leading space when the next
character is not a space. -/
theorem sp_cons (rest : List Char)
    (h : ∀ c, rest.head? = some c → (c == ' ') = false) :
    shouldbespace (' ' :: rest) = some (rest, ()) := by
  have hsplit := takeWhile_dropWhile_append (fun c => c == ' ') [' '] rest
    (by intro c hc; simp at hc; simp [hc]) h
  simp only [List.singleton_append] at hsplit
  simp [shouldbespace, hsplit.1, hsplit.2]

/-- A token character is not a space. -/
theorem tokChar_not_space (c : Char) (h : isTokChar c = true) :
    (c == ' ') = false := by
  by_contra hc
  simp only [Bool.not_eq_false] at hc
  have : c = ' ' := eq_of_beq hc
  subst this
  exact absurd h (by decide)

/-- A digit character is a token character. -/
theorem digit_isTokChar (c : Char) (h : c.isDigit = true) :
    isTokChar c = true := by
  simp [isTokChar, h]

/-- A digit character is not a space. -/
theorem digit_not_space (c : Char) (h : c.isDigit = true) :
    (c == ' ') = false :=
  tokChar_not_space c (digit_isTokChar c h)

/-- `dChar` always produces a digit character. -/
theorem dChar_isDigit (d : Nat) : (dChar d).isDigit = true := by
  unfold dChar
  split <;> decide

/-- `charToDigit` inverts `dChar` below ten. -/
theorem charToDigit_dChar (d : Nat) (h : d < 10) :
    charToDigit (dChar d) = d := by
  interval_cases d <;> decide

/-- Big-endian digit evaluation of a reversed little-endian digit list. -/
theorem foldl_rev_digits (ds : List Nat) (h : ∀ d ∈ ds, d < 10) :
    ∀ a, List.foldl (fun x c => 10 * x + charToDigit c) a
      ((ds.map dChar).reverse) = a * 10 ^ ds.length + Nat.ofDigits 10 ds := by
  induction ds with
  | nil => intro a; simp [Nat.ofDigits]
  | cons d ds ih =>
    intro a
    have hd : d < 10 := h d (by simp)
    have hds : ∀ d' ∈ ds, d' < 10 := fun d' hd' => h d' (by simp [hd'])
    simp only [List.map_cons, List.reverse_cons, List.foldl_append,
      List.foldl_cons, List.foldl_nil, ih hds a]
    rw [charToDigit_dChar d hd, Nat.ofDigits_cons]
    simp [List.length_cons, pow_succ]
    ring

/-- The decimal rendering evaluates back to the number. -/
theorem natFromDigits_natToChars (n : Nat) :
    natFromDigits (natToChars n) = n := by
  by_cases h : n = 0
  · subst h; rfl
  · unfold natToChars natFromDigits
    rw [if_neg h]
    have hlt : ∀ d ∈ Nat.digits 10 n, d < 10 :=
      fun d hd => Nat.digits_lt_base (by norm_num) hd
    rw [foldl_rev_digits (Nat.digits 10 n) hlt 0]
    simp [Nat.ofDigits_digits]

/-- The decimal rendering is nonempty. -/
theorem natToChars_ne_nil (n : Nat) : natToChars n ≠ [] := by
  unfold natToChars
  by_cases h : n = 0
  · simp [h]
  · simp only [if_neg h]
    intro hcon
    have hlen := congrArg List.length hcon
    simp only [List.length_reverse, List.length_map, List.length_nil] at hlen
    have hnil : Nat.digits 10 n = [] := List.eq_nil_of_length_eq_zero hlen
    exact ((@Nat.digits_ne_nil_iff_ne_zero 10 n).mpr h) hnil

/-- Every character of the decimal rendering is a digit. -/
theorem natToChars_digits (n : Nat) :
    ∀ c ∈ natToChars n, c.isDigit = true := by
  unfold natToChars
  by_cases h : n = 0
  · simp [h]
  · simp only [if_neg h]
    intro c hc
    rw [List.mem_reverse] at hc
    obtain ⟨d, _, rfl⟩ := List.mem_map.mp hc
    exact dChar_isDigit d

/-- Parsing the decimal rendering at the head of an input that continues
with a non-digit. -/
theorem pnat_append (n : Nat) (rest : List Char)
    (hb : ∀ c, rest.head? = some c → c.isDigit = false) :
    pnat (natToChars n ++ rest) = some (rest, n) := by
  obtain ⟨htw, hdw⟩ := takeWhile_dropWhile_append Char.isDigit
    (natToChars n) rest (natToChars_digits n) hb
  obtain ⟨a, t', heq⟩ := List.exists_cons_of_ne_nil (natToChars_ne_nil n)
  rw [heq] at htw hdw
  simp only [List.cons_append] at htw hdw
  rw [heq]
  simp only [pnat, List.cons_append, htw, hdw]
  rw [← heq, natFromDigits_natToChars n]

/-- The head of a rendered token-list tail is never a token character. -/
theorem renderTail_boundary (ts : List Tok) (rest : List Char)
    (hb : SepBoundary rest) : Boundary (renderTail ts ++ rest) := by
  cases ts with
  | nil =>
    intro c hc
    simp only [renderTail, List.nil_append] at hc
    exact (hb c hc).1
  | cons t ts =>
    intro c hc
    simp only [renderTail, List.cons_append, List.head?_cons] at hc
    cases hc
    decide

/-- Parsing the rendered tail of a comma-separated token list, given enough
fuel and a separator boundary. -/
theorem selectsMore_render (ts : List Tok) :
    ∀ (fuel : Nat) (rest : List Char), ts.length ≤ fuel →
    (∀ t ∈ ts, TokValid t) → SepBoundary rest →
    selectsMore fuel (renderTail ts ++ rest) = (rest, ts) := by
  induction ts with
  | nil =>
    intro fuel rest _ _ hb
    simp only [renderTail, List.nil_append]
    cases fuel with
    | zero => rfl
    | succ fuel =>
      cases rest with
      | nil => rfl
      | cons c r =>
        obtain ⟨-, hc⟩ := hb c rfl
        unfold selectsMore
        cases c with
        | mk v h =>
          simp only
          split
          · rename_i heq
            cases heq
            exact absurd rfl hc
          · rfl
  | cons t ts ih =>
    intro fuel rest hfuel hts hb
    cases fuel with
    | zero => simp at hfuel
    | succ fuel =>
      have hbound : Boundary (renderTail ts ++ rest) := renderTail_boundary ts rest hb
      have htok : token (t ++ (renderTail ts ++ rest)) =
          some (renderTail ts ++ rest, t) :=
        token_append t (renderTail ts ++ rest) (hts t (by simp)) hbound
      have hrec := ih fuel rest (by simpa using hfuel)
        (fun t' ht' => hts t' (by simp [ht'])) hb
      simp only [renderTail, List.cons_append, List.append_assoc]
      unfold selectsMore
      simp only [htok, hrec]

/-- A rendered token-list tail is at least as long as the list. -/
theorem renderTail_length (ts : List Tok) : ts.length ≤ (renderTail ts).length := by
  induction ts with
  | nil => simp [renderTail]
  | cons t ts ih => simp [renderTail]; omega

/-- Parsing the rendering of a nonempty comma-separated token list, given a
separator boundary after it. -/
theorem selects_render (ts : List Tok) (rest : List Char)
    (hts : ToksValid ts) (hb : SepBoundary rest) :
    selects (commaJoin ts ++ rest) = some (rest, ts) := by
  obtain ⟨t, ts', rfl⟩ := List.exists_cons_of_ne_nil hts.1
  have hbound : Boundary (renderTail ts' ++ rest) := renderTail_boundary ts' rest hb
  have htok : token (t ++ (renderTail ts' ++ rest)) =
      some (renderTail ts' ++ rest, t) :=
    token_append t (renderTail ts' ++ rest) (hts.2 t (by simp)) hbound
  have hfuel : ts'.length ≤ (renderTail ts' ++ rest).length := by
    have := renderTail_length ts'
    simp only [List.length_append]
    omega
  have hrec := selectsMore_render ts' (renderTail ts' ++ rest).length rest hfuel
    (fun t' ht' => hts.2 t' (by simp [ht'])) hb
  simp only [commaJoin, List.append_assoc]
  unfold selects
  simp only [htok, hrec]

/-- Every token produced by `selectsMore` is valid. -/
theorem selectsMore_valid :
    ∀ (fuel : Nat) (i : List Char) (t : Tok),
      t ∈ (selectsMore fuel i).2 → TokValid t := by
  intro fuel
  induction fuel with
  | zero => intro i t ht; simp [selectsMore] at ht
  | succ fuel ih =>
    intro i t ht
    unfold selectsMore at ht
    split at ht
    · rename_i rest
      cases htok : token rest with
      | none => rw [htok] at ht; simp at ht
      | some p =>
        rw [htok] at ht
        simp only at ht
        rcases List.mem_cons.mp ht with rfl | hmem
        · exact token_valid rest p.1 p.2 (by rw [htok])
        · exact ih p.1 _ hmem
    · simp at ht

/-- Every token produced by `selects` is valid, and the list is nonempty. -/
theorem selects_valid (i r : List Char) (ts : List Tok)
    (h : selects i = some (r, ts)) : ToksValid ts := by
  unfold selects at h
  cases htok : token i with
  | none => rw [htok] at h; cases h
  | some p =>
    rw [htok] at h
    simp only at h
    cases h
    constructor
    · simp
    · intro t ht
      rcases List.mem_cons.mp ht with rfl | hmem
      · exact token_valid i p.1 p.2 (by rw [htok])
      · exact selectsMore_valid p.1.length p.1 t hmem

/-- Every token produced by a keyword-token clause grammar is valid. -/
theorem kwTok_valid (kw i r : List Char) (t : Tok)
    (h : kwTok kw i = some (r, t)) : TokValid t := by
  unfold kwTok at h
  cases h1 : tagNoCase kw i with
  | none => rw [h1] at h; cases h
  | some p =>
    rw [h1] at h
    simp only at h
    cases h2 : shouldbespace p.1 with
    | none => rw [h2] at h; cases h
    | some q =>
      rw [h2] at h
      simp only at h
      exact token_valid q.1 r t h

/-- The shape of a rendered optional-clause suffix: empty, or a space
followed by a keyword whose lowered two-character prefix is listed. -/
def TailShape (heads : List (Char × Char)) (l : List Char) : Prop :=
  l = [] ∨ ∃ c1 c2 r, l = ' ' :: c1 :: c2 :: r ∧
    (c1.toLower, c2.toLower) ∈ heads

/-- The empty suffix has every shape. -/
theorem tailShape_nil (heads : List (Char × Char)) : TailShape heads [] :=
  Or.inl rfl

/-- Weakening the head list preserves the shape. -/
theorem tailShape_weaken (q : Char × Char) (heads : List (Char × Char))
    (l : List Char) (h : TailShape heads l) : TailShape (q :: heads) l := by
  rcases h with rfl | ⟨c1, c2, r, rfl, hmem⟩
  · exact Or.inl rfl
  · exact Or.inr ⟨c1, c2, r, rfl, List.mem_cons_of_mem q hmem⟩

/-- A suffix with a clause shape starts at a non-token boundary. -/
theorem tailShape_boundary (heads : List (Char × Char)) (l : List Char)
    (h : TailShape heads l) : Boundary l := by
  rcases h with rfl | ⟨c1, c2, r, rfl, -⟩
  · intro c hc; cases hc
  · intro c hc
    cases hc
    decide

/-- A suffix with a clause shape starts at a separator boundary. -/
theorem tailShape_sepBoundary (heads : List (Char × Char)) (l : List Char)
    (h : TailShape heads l) : SepBoundary l := by
  rcases h with rfl | ⟨c1, c2, r, rfl, -⟩
  · intro c hc; cases hc
  · intro c hc
    cases hc
    exact ⟨by decide, by decide⟩

/-- Parsing a present keyword-token clause: one space, the keyword, one
space, the payload token, leaving the remaining suffix. -/
theorem popt_kwTok_present {α : Type}
    (p : List Char → Option (List Char × α)) (mk : Tok → α)
    (c0 : Char) (kw' : List Char) (t tail : List Char)
    (hp : ∀ i, p i = (kwTok (c0 :: kw') i).map (fun q => (q.1, mk q.2)))
    (hc0 : (c0 == ' ') = false)
    (ht : TokValid t) (hb : Boundary tail) :
    popt (preceded shouldbespace p)
      (' ' :: ((c0 :: kw') ++ ' ' :: (t ++ tail))) = (tail, some (mk t)) := by
  have hsp : shouldbespace (' ' :: ((c0 :: kw') ++ ' ' :: (t ++ tail))) =
      some ((c0 :: kw') ++ ' ' :: (t ++ tail), ()) :=
    sp_cons _ (by intro c hc; simp at hc; rw [← hc]; exact hc0)
  have htag : tagNoCase (c0 :: kw') ((c0 :: kw') ++ ' ' :: (t ++ tail)) =
      some (' ' :: (t ++ tail), ()) := tag_self _ _
  obtain ⟨a, t', rfl⟩ := List.exists_cons_of_ne_nil ht.1
  have hasp : (a == ' ') = false :=
    tokChar_not_space a (ht.2 a (by simp))
  have hsp2 : shouldbespace (' ' :: ((a :: t') ++ tail)) =
      some ((a :: t') ++ tail, ()) :=
    sp_cons _ (by intro c hc; simp at hc; rw [← hc]; exact hasp)
  have htok : token ((a :: t') ++ tail) = some (tail, a :: t') :=
    token_append _ _ ht hb
  simp only [popt, preceded, hsp, hp, kwTok, htag, List.cons_append] at *
  simp only [popt, preceded, hsp, hp, kwTok, htag, hsp2, htok]
  rfl

/-- Parsing a present keyword-number clause: one space, the keyword, one
space, the decimal payload, leaving the remaining suffix. -/
theorem popt_kwNat_present {α : Type}
    (p : List Char → Option (List Char × α)) (mk : Nat → α)
    (c0 : Char) (kw' : List Char) (n : Nat) (tail : List Char)
    (hp : ∀ i, p i = (kwNat (c0 :: kw') i).map (fun q => (q.1, mk q.2)))
    (hc0 : (c0 == ' ') = false)
    (hb : Boundary tail) :
    popt (preceded shouldbespace p)
      (' ' :: ((c0 :: kw') ++ ' ' :: (natToChars n ++ tail))) =
      (tail, some (mk n)) := by
  have hsp : shouldbespace (' ' :: ((c0 :: kw') ++ ' ' :: (natToChars n ++ tail))) =
      some ((c0 :: kw') ++ ' ' :: (natToChars n ++ tail), ()) :=
    sp_cons _ (by intro c hc; simp at hc; rw [← hc]; exact hc0)
  have htag : tagNoCase (c0 :: kw') ((c0 :: kw') ++ ' ' :: (natToChars n ++ tail)) =
      some (' ' :: (natToChars n ++ tail), ()) := tag_self _ _
  obtain ⟨a, t', heq⟩ := List.exists_cons_of_ne_nil (natToChars_ne_nil n)
  have hasp : (a == ' ') = false := by
    apply digit_not_space
    apply natToChars_digits n
    rw [heq]; simp
  have hsp2 : shouldbespace (' ' :: (natToChars n ++ tail)) =
      some (natToChars n ++ tail, ()) := by
    apply sp_cons
    intro c hc
    rw [heq] at hc
    simp at hc
    rw [← hc]; exact hasp
  have hnum : pnat (natToChars n ++ tail) = some (tail, n) := by
    apply pnat_append
    intro c hc
    have hbc := hb c hc
    by_contra hd
    simp only [Bool.not_eq_false] at hd
    exact absurd (digit_isTokChar c hd) (by simp [hbc])
  simp only [popt, preceded, hsp, hp, kwNat, htag, hsp2, hnum]
  rfl

/-- Skipping an absent clause: when the remaining suffix is empty or starts
with a later clause's keyword (whose lowered two-character prefix mismatches
this clause's keyword), the optional parse consumes nothing. -/
theorem popt_clause_absent {α : Type}
    (p : List Char → Option (List Char × α)) (kw : List Char)
    (heads : List (Char × Char)) (tail : List Char)
    (hp : ∀ i, tagNoCase kw i = none → p i = none)
    (hts : TailShape heads tail)
    (h2 : 2 ≤ kw.length)
    (hm : ∀ q ∈ heads, (kw.take 2).map Char.toLower ≠ [q.1, q.2])
    (hsp : ∀ q ∈ heads, q.1 ≠ ' ') :
    popt (preceded shouldbespace p) tail = (tail, none) := by
  rcases hts with rfl | ⟨c1, c2, r, rfl, hmem⟩
  · rfl
  · have hc1 : (c1 == ' ') = false := by
      have h1 := hsp _ hmem
      simp only at h1
      cases hbe : c1 == ' ' with
      | false => rfl
      | true =>
        have : c1 = ' ' := eq_of_beq hbe
        subst this
        exact absurd rfl h1
    have hspc : shouldbespace (' ' :: c1 :: c2 :: r) =
        some (c1 :: c2 :: r, ()) :=
      sp_cons _ (by intro c hc; simp at hc; rw [← hc]; exact hc1)
    have htagf : tagNoCase kw (c1 :: c2 :: r) = none := by
      apply tag_fail_two kw c1 c2 r h2
      exact hm _ hmem
    have hpf := hp _ htagf
    simp only [popt, preceded, hspc, hpf]

/-- The lowered two-character keyword prefixes of the clauses from
`TIMEOUT` on. -/
def heads11 : List (Char × Char) := [('t', 'i')]

/-- The lowered two-character keyword prefixes of the clauses from
`VERSION` on. -/
def heads10 : List (Char × Char) := ('v', 'e') :: heads11

/-- The lowered two-character keyword prefixes of the clauses from
`FETCH` on. -/
def heads9 : List (Char × Char) := ('f', 'e') :: heads10

/-- The lowered two-character keyword prefixes of the clauses from
`START` on. -/
def heads8 : List (Char × Char) := ('s', 't') :: heads9

/-- The lowered two-character keyword prefixes of the clauses from
`LIMIT` on. -/
def heads7 : List (Char × Char) := ('l', 'i') :: heads8

/-- The lowered two-character keyword prefixes of the clauses from
`ORDER BY` on. -/
def heads6 : List (Char × Char) := ('o', 'r') :: heads7

/-- The lowered two-character keyword prefixes of the clauses from
`GROUP BY` on. -/
def heads5 : List (Char × Char) := ('g', 'r') :: heads6

/-- The lowered two-character keyword prefixes of the clauses from
`SPLIT ON` on. -/
def heads4 : List (Char × Char) := ('s', 'p') :: heads5

/-- The lowered two-character keyword prefixes of all optional clauses. -/
def heads3 : List (Char × Char) := ('w', 'h') :: heads4

/-- The suffix from `TIMEOUT` on has the advertised clause shape. -/
theorem fmtTail11_shape (s : SelectStatement) :
    TailShape heads11 (fmtTail11 s) := by
  obtain ⟨e, w, c, sp, g, o, l, st, f, v, t⟩ := s
  cases t with
  | none => exact tailShape_nil _
  | some tv => exact Or.inr ⟨'T', 'I', _, rfl, by decide⟩

/-- The suffix from `VERSION` on has the advertised clause shape. -/
theorem fmtTail10_shape (s : SelectStatement) :
    TailShape heads10 (fmtTail10 s) := by
  obtain ⟨e, w, c, sp, g, o, l, st, f, v, t⟩ := s
  cases v with
  | none => exact tailShape_weaken _ _ _ (fmtTail11_shape _)
  | some vv => exact Or.inr ⟨'V', 'E', _, rfl, by decide⟩

/-- The suffix from `FETCH` on has the advertised clause shape. -/
theorem fmtTail9_shape (s : SelectStatement) :
    TailShape heads9 (fmtTail9 s) := by
  obtain ⟨e, w, c, sp, g, o, l, st, f, v, t⟩ := s
  cases f with
  | none => exact tailShape_weaken _ _ _ (fmtTail10_shape _)
  | some fv => exact Or.inr ⟨'F', 'E', _, rfl, by decide⟩

/-- The suffix from `START` on has the advertised clause shape. -/
theorem fmtTail8_shape (s : SelectStatement) :
    TailShape heads8 (fmtTail8 s) := by
  obtain ⟨e, w, c, sp, g, o, l, st, f, v, t⟩ := s
  cases st with
  | none => exact tailShape_weaken _ _ _ (fmtTail9_shape _)
  | some sv => exact Or.inr ⟨'S', 'T', _, rfl, by decide⟩

/-- The suffix from `LIMIT` on has the advertised clause shape. -/
theorem fmtTail7_shape (s : SelectStatement) :
    TailShape heads7 (fmtTail7 s) := by
  obtain ⟨e, w, c, sp, g, o, l, st, f, v, t⟩ := s
  cases l with
  | none => exact tailShape_weaken _ _ _ (fmtTail8_shape _)
  | some lv => exact Or.inr ⟨'L', 'I', _, rfl, by decide⟩

/-- The suffix from `ORDER BY` on has the advertised clause shape. -/
theorem fmtTail6_shape (s : SelectStatement) :
    TailShape heads6 (fmtTail6 s) := by
  obtain ⟨e, w, c, sp, g, o, l, st, f, v, t⟩ := s
  cases o with
  | none => exact tailShape_weaken _ _ _ (fmtTail7_shape _)
  | some ov => exact Or.inr ⟨'O', 'R', _, rfl, by decide⟩

/-- The suffix from `GROUP BY` on has the advertised clause shape. -/
theorem fmtTail5_shape (s : SelectStatement) :
    TailShape heads5 (fmtTail5 s) := by
  obtain ⟨e, w, c, sp, g, o, l, st, f, v, t⟩ := s
  cases g with
  | none => exact tailShape_weaken _ _ _ (fmtTail6_shape _)
  | some gv => exact Or.inr ⟨'G', 'R', _, rfl, by decide⟩

/-- The suffix from `SPLIT ON` on has the advertised clause shape. -/
theorem fmtTail4_shape (s : SelectStatement) :
    TailShape heads4 (fmtTail4 s) := by
  obtain ⟨e, w, c, sp, g, o, l, st, f, v, t⟩ := s
  cases sp with
  | none => exact tailShape_weaken _ _ _ (fmtTail5_shape _)
  | some sv => exact Or.inr ⟨'S', 'P', _, rfl, by decide⟩

/-- The whole optional-clause suffix has the advertised clause shape. -/
theorem fmtTail3_shape (s : SelectStatement) :
    TailShape heads3 (fmtTail3 s) := by
  obtain ⟨e, w, c, sp, g, o, l, st, f, v, t⟩ := s
  cases c with
  | none => exact tailShape_weaken _ _ _ (fmtTail4_shape _)
  | some cv => exact Or.inr ⟨'W', 'H', _, rfl, by decide⟩

/-- Parsing the optional `TIMEOUT` clause from its rendered position. -/
theorem fmtTail11_step (s : SelectStatement)
    (hv : OptValid (fun c : Timeout => TokValid c.v) s.timeout) :
    popt (preceded shouldbespace timeout) (fmtTail11 s) =
      (fmtTail12 s, s.timeout) := by
  obtain ⟨e, w, c, sp, g, o, l, st, f, v, t⟩ := s
  cases t with
  | none => rfl
  | some tv =>
    exact popt_kwTok_present timeout Timeout.mk 'T' ['I', 'M', 'E', 'O', 'U', 'T']
      tv.v [] (fun i => rfl) (by decide) hv (by intro c hc; cases hc)

/-- Parsing the optional `VERSION` clause from its rendered position. -/
theorem fmtTail10_step (s : SelectStatement)
    (hv : OptValid (fun c : Version => TokValid c.v) s.version) :
    popt (preceded shouldbespace version) (fmtTail10 s) =
      (fmtTail11 s, s.version) := by
  obtain ⟨e, w, c, sp, g, o, l, st, f, v, t⟩ := s
  cases v with
  | none =>
    exact popt_clause_absent version kwVERSION heads11 _
      (fun i h => by simp [version, kwTok, h])
      (fmtTail11_shape _) (by decide) (by decide) (by decide)
  | some vv =>
    exact popt_kwTok_present version Version.mk 'V' ['E', 'R', 'S', 'I', 'O', 'N']
      vv.v _ (fun i => rfl) (by decide) hv
      (tailShape_boundary _ _ (fmtTail11_shape _))

/-- Parsing the optional `FETCH` clause from its rendered position. -/
theorem fmtTail9_step (s : SelectStatement)
    (hv : OptValid (fun c : Fetchs => TokValid c.v) s.fetch) :
    popt (preceded shouldbespace fetch) (fmtTail9 s) =
      (fmtTail10 s, s.fetch) := by
  obtain ⟨e, w, c, sp, g, o, l, st, f, v, t⟩ := s
  cases f with
  | none =>
    exact popt_clause_absent fetch kwFETCH heads10 _
      (fun i h => by simp [fetch, kwTok, h])
      (fmtTail10_shape _) (by decide) (by decide) (by decide)
  | some fv =>
    exact popt_kwTok_present fetch Fetchs.mk 'F' ['E', 'T', 'C', 'H']
      fv.v _ (fun i => rfl) (by decide) hv
      (tailShape_boundary _ _ (fmtTail10_shape _))

/-- Parsing the optional `START` clause from its rendered position. -/
theorem fmtTail8_step (s : SelectStatement) :
    popt (preceded shouldbespace start) (fmtTail8 s) =
      (fmtTail9 s, s.start) := by
  obtain ⟨e, w, c, sp, g, o, l, st, f, v, t⟩ := s
  cases st with
  | none =>
    exact popt_clause_absent start kwSTART heads9 _
      (fun i h => by simp [start, kwNat, h])
      (fmtTail9_shape _) (by decide) (by decide) (by decide)
  | some sv =>
    exact popt_kwNat_present start Start.mk 'S' ['T', 'A', 'R', 'T']
      sv.v _ (fun i => rfl) (by decide)
      (tailShape_boundary _ _ (fmtTail9_shape _))

/-- Parsing the optional `LIMIT` clause from its rendered position. -/
theorem fmtTail7_step (s : SelectStatement) :
    popt (preceded shouldbespace limit) (fmtTail7 s) =
      (fmtTail8 s, s.limit) := by
  obtain ⟨e, w, c, sp, g, o, l, st, f, v, t⟩ := s
  cases l with
  | none =>
    exact popt_clause_absent limit kwLIMIT heads8 _
      (fun i h => by simp [limit, kwNat, h])
      (fmtTail8_shape _) (by decide) (by decide) (by decide)
  | some lv =>
    exact popt_kwNat_present limit Limit.mk 'L' ['I', 'M', 'I', 'T']
      lv.v _ (fun i => rfl) (by decide)
      (tailShape_boundary _ _ (fmtTail8_shape _))

/-- Parsing the optional `ORDER BY` clause from its rendered position. -/
theorem fmtTail6_step (s : SelectStatement)
    (hv : OptValid (fun c : Orders => TokValid c.v) s.order) :
    popt (preceded shouldbespace order) (fmtTail6 s) =
      (fmtTail7 s, s.order) := by
  obtain ⟨e, w, c, sp, g, o, l, st, f, v, t⟩ := s
  cases o with
  | none =>
    exact popt_clause_absent order kwORDER heads7 _
      (fun i h => by simp [order, kwTok, h])
      (fmtTail7_shape _) (by decide) (by decide) (by decide)
  | some ov =>
    exact popt_kwTok_present order Orders.mk 'O'
      ['R', 'D', 'E', 'R', ' ', 'B', 'Y']
      ov.v _ (fun i => rfl) (by decide) hv
      (tailShape_boundary _ _ (fmtTail7_shape _))

/-- Parsing the optional `GROUP BY` clause from its rendered position. -/
theorem fmtTail5_step (s : SelectStatement)
    (hv : OptValid (fun c : Groups => TokValid c.v) s.group) :
    popt (preceded shouldbespace group) (fmtTail5 s) =
      (fmtTail6 s, s.group) := by
  obtain ⟨e, w, c, sp, g, o, l, st, f, v, t⟩ := s
  cases g with
  | none =>
    exact popt_clause_absent group kwGROUP heads6 _
      (fun i h => by simp [group, kwTok, h])
      (fmtTail6_shape _) (by decide) (by decide) (by decide)
  | some gv =>
    exact popt_kwTok_present group Groups.mk 'G'
      ['R', 'O', 'U', 'P', ' ', 'B', 'Y']
      gv.v _ (fun i => rfl) (by decide) hv
      (tailShape_boundary _ _ (fmtTail6_shape _))

/-- Parsing the optional `SPLIT ON` clause from its rendered position. -/
theorem fmtTail4_step (s : SelectStatement)
    (hv : OptValid (fun c : Splits => TokValid c.v) s.split) :
    popt (preceded shouldbespace split) (fmtTail4 s) =
      (fmtTail5 s, s.split) := by
  obtain ⟨e, w, c, sp, g, o, l, st, f, v, t⟩ := s
  cases sp with
  | none =>
    exact popt_clause_absent split kwSPLIT heads5 _
      (fun i h => by simp [split, kwTok, h])
      (fmtTail5_shape _) (by decide) (by decide) (by decide)
  | some sv =>
    exact popt_kwTok_present split Splits.mk 'S'
      ['P', 'L', 'I', 'T', ' ', 'O', 'N']
      sv.v _ (fun i => rfl) (by decide) hv
      (tailShape_boundary _ _ (fmtTail5_shape _))

/-- Parsing the optional `WHERE` clause from its rendered position. -/
theorem fmtTail3_step (s : SelectStatement)
    (hv : OptValid (fun c : Cond => TokValid c.v) s.cond) :
    popt (preceded shouldbespace cond') (fmtTail3 s) =
      (fmtTail4 s, s.cond) := by
  obtain ⟨e, w, c, sp, g, o, l, st, f, v, t⟩ := s
  cases c with
  | none =>
    exact popt_clause_absent cond' kwWHERE heads4 _
      (fun i h => by simp [cond', kwTok, h])
      (fmtTail4_shape _) (by decide) (by decide) (by decide)
  | some cv =>
    exact popt_kwTok_present cond' Cond.mk 'W' ['H', 'E', 'R', 'E']
      cv.v _ (fun i => rfl) (by decide) hv
      (tailShape_boundary _ _ (fmtTail4_shape _))

/-- The head of a rendered token list is a token character, hence not a
space. -/
theorem commaJoin_head_not_space (ts : List Tok) (rest : List Char)
    (hts : ToksValid ts) :
    ∀ c, (commaJoin ts ++ rest).head? = some c → (c == ' ') = false := by
  obtain ⟨t, ts', rfl⟩ := List.exists_cons_of_ne_nil hts.1
  obtain ⟨a, t', heq⟩ := List.exists_cons_of_ne_nil (hts.2 t (by simp)).1
  intro c hc
  simp only [commaJoin, heq, List.cons_append, List.head?_cons] at hc
  cases hc
  exact tokChar_not_space a ((hts.2 t (by simp)).2 a (by simp [heq]))

/-- The canonical-parse theorem: parsing the `Display` rendering of any
valid statement consumes it fully and returns the statement itself. -/
theorem select_fmtSelect (s : SelectStatement) (hv : StValid s) :
    select (fmtSelect s) = some ([], s) := by
  obtain ⟨hexpr, hwhat, hc, hsplit, hgroup, horder, hfetch, hversion,
    htimeout⟩ := hv
  have hsel : tagNoCase kwSELECT (fmtSelect s) =
      some (' ' :: (commaJoin s.expr ++
        ' ' :: (kwFROM ++ ' ' :: (commaJoin s.what ++ fmtTail3 s))), ()) :=
    tag_self kwSELECT _
  have hsp1 : shouldbespace (' ' :: (commaJoin s.expr ++
      ' ' :: (kwFROM ++ ' ' :: (commaJoin s.what ++ fmtTail3 s)))) =
      some (commaJoin s.expr ++
        ' ' :: (kwFROM ++ ' ' :: (commaJoin s.what ++ fmtTail3 s)), ()) :=
    sp_cons _ (commaJoin_head_not_space s.expr _ hexpr)
  have hflds : fields (commaJoin s.expr ++
      ' ' :: (kwFROM ++ ' ' :: (commaJoin s.what ++ fmtTail3 s))) =
      some (' ' :: (kwFROM ++ ' ' :: (commaJoin s.what ++ fmtTail3 s)),
        s.expr) :=
    selects_render s.expr _ hexpr
      (by intro c hc; cases hc; exact ⟨by decide, by decide⟩)
  have hsp2 : shouldbespace
      (' ' :: (kwFROM ++ ' ' :: (commaJoin s.what ++ fmtTail3 s))) =
      some (kwFROM ++ ' ' :: (commaJoin s.what ++ fmtTail3 s), ()) :=
    sp_cons _ (by
      intro c hc
      have : c = 'F' := by simpa [kwFROM] using hc.symm
      subst this
      decide)
  have hfrom : tagNoCase kwFROM
      (kwFROM ++ ' ' :: (commaJoin s.what ++ fmtTail3 s)) =
      some (' ' :: (commaJoin s.what ++ fmtTail3 s), ()) :=
    tag_self kwFROM _
  have hsp3 : shouldbespace (' ' :: (commaJoin s.what ++ fmtTail3 s)) =
      some (commaJoin s.what ++ fmtTail3 s, ()) :=
    sp_cons _ (commaJoin_head_not_space s.what _ hwhat)
  have hwh : selects (commaJoin s.what ++ fmtTail3 s) =
      some (fmtTail3 s, s.what) :=
    selects_render s.what _ hwhat
      (tailShape_sepBoundary _ _ (fmtTail3_shape s))
  have st3 := fmtTail3_step s hc
  have st4 := fmtTail4_step s hsplit
  have st5 := fmtTail5_step s hgroup
  have st6 := fmtTail6_step s horder
  have st7 := fmtTail7_step s
  have st8 := fmtTail8_step s
  have st9 := fmtTail9_step s hfetch
  have st10 := fmtTail10_step s hversion
  have st11 := fmtTail11_step s htimeout
  simp only [select, hsel, hsp1, hflds, hsp2, hfrom, hsp3, hwh,
    st3, st4, st5, st6, st7, st8, st9, st10, st11]
  rfl

/-- An optional sub-parse preceded by whitespace only yields payloads the
underlying clause parser produced. -/
theorem popt_preceded_valid {α : Type} (f : α → Prop)
    (p : List Char → Option (List Char × α))
    (hp : ∀ i r v, p i = some (r, v) → f v) (i : List Char) :
    OptValid f (popt (preceded shouldbespace p) i).2 := by
  unfold popt preceded
  cases h1 : shouldbespace i with
  | none => exact trivial
  | some q =>
    dsimp only
    cases h2 : p q.1 with
    | none => exact trivial
    | some pr => exact hp q.1 pr.1 pr.2 (by rw [h2])

/-- A keyword-token clause parser only yields valid payloads. -/
theorem kwTok_map_valid {α : Type} (mk : Tok → α) (f : α → Prop)
    (hf : ∀ t, TokValid t → f (mk t)) (kw i r : List Char) (v : α)
    (h : (kwTok kw i).map (fun q => (q.1, mk q.2)) = some (r, v)) : f v := by
  cases hk : kwTok kw i with
  | none => rw [hk] at h; cases h
  | some p =>
    rw [hk] at h
    simp only [Option.map] at h
    cases h
    exact hf p.2 (kwTok_valid kw i p.1 p.2 (by rw [hk]))

/-- Every fully parsed `SelectStatement` satisfies the token invariant. -/
theorem select_valid (i r : List Char) (st : SelectStatement)
    (h : select i = some (r, st)) : StValid st := by
  unfold select at h
  cases h1 : tagNoCase kwSELECT i with
  | none => rw [h1] at h; cases h
  | some p1 =>
  rw [h1] at h
  simp only at h
  cases h2 : shouldbespace p1.1 with
  | none => rw [h2] at h; cases h
  | some p2 =>
  rw [h2] at h
  simp only at h
  cases h3 : fields p2.1 with
  | none => rw [h3] at h; cases h
  | some p3 =>
  rw [h3] at h
  simp only at h
  cases h4 : shouldbespace p3.1 with
  | none => rw [h4] at h; cases h
  | some p4 =>
  rw [h4] at h
  simp only at h
  cases h5 : tagNoCase kwFROM p4.1 with
  | none => rw [h5] at h; cases h
  | some p5 =>
  rw [h5] at h
  simp only at h
  cases h6 : shouldbespace p5.1 with
  | none => rw [h6] at h; cases h
  | some p6 =>
  rw [h6] at h
  simp only at h
  cases h7 : selects p6.1 with
  | none => rw [h7] at h; cases h
  | some p7 =>
  rw [h7] at h
  simp only at h
  cases h
  refine ⟨selects_valid p2.1 p3.1 p3.2 (by unfold fields at h3; rw [h3]),
    selects_valid p6.1 p7.1 p7.2 (by rw [h7]), ?_, ?_, ?_, ?_, ?_, ?_, ?_⟩
  · exact popt_preceded_valid _ cond'
      (fun i r v hv => kwTok_map_valid Cond.mk (fun c : Cond => TokValid c.v)
        (fun t ht => ht) kwWHERE i r v hv) _
  · exact popt_preceded_valid _ split
      (fun i r v hv => kwTok_map_valid Splits.mk (fun c : Splits => TokValid c.v)
        (fun t ht => ht) kwSPLIT i r v hv) _
  · exact popt_preceded_valid _ group
      (fun i r v hv => kwTok_map_valid Groups.mk (fun c : Groups => TokValid c.v)
        (fun t ht => ht) kwGROUP i r v hv) _
  · exact popt_preceded_valid _ order
      (fun i r v hv => kwTok_map_valid Orders.mk (fun c : Orders => TokValid c.v)
        (fun t ht => ht) kwORDER i r v hv) _
  · exact popt_preceded_valid _ fetch
      (fun i r v hv => kwTok_map_valid Fetchs.mk (fun c : Fetchs => TokValid c.v)
        (fun t ht => ht) kwFETCH i r v hv) _
  · exact popt_preceded_valid _ version
      (fun i r v hv => kwTok_map_valid Version.mk (fun c : Version => TokValid c.v)
        (fun t ht => ht) kwVERSION i r v hv) _
  · exact popt_preceded_valid _ timeout
      (fun i r v hv => kwTok_map_valid Timeout.mk (fun c : Timeout => TokValid c.v)
        (fun t ht => ht) kwTIMEOUT i r v hv) _

/-! ## Claim C5: the parse/format round-trip -/

/-- Counterexample to claim C5 as stated: the parser accepts
`select * FROM test` (keywords are matched case-insensitively by
`tag_no_case`), but formatting the parsed statement prints the canonical
upper-case `SELECT`, so the original text is not reproduced character for
character. -/
theorem c5_roundtrip_counterexample :
    select "select * FROM test".data =
      some ([], ⟨[['*']], [['t', 'e', 's', 't']], none, none, none, none,
        none, none, none, none, none⟩) ∧
    fmtSelect ⟨[['*']], [['t', 'e', 's', 't']], none, none, none, none,
        none, none, none, none, none⟩ ≠ "select * FROM test".data := by
  constructor
  · rfl
  · decide

/-- Claim C5 as amended: for every string the select parser fully accepts,
formatting the parsed statement yields a string the parser fully accepts
and that parses back to exactly the same statement (so the round-trip
reproduces the original text exactly whenever the original is already in
the canonical `Display` form, as in
`SELECT * FROM test:thingy ORDER BY name`). -/
theorem c5_parse_format_reparse (s : List Char) (st : SelectStatement)
    (h : select s = some ([], st)) :
    select (fmtSelect st) = some ([], st) :=
  select_fmtSelect st (select_valid s [] st h)

/-- Witness for the amended claim C5 at the spec's example: the statement
parsed from `SELECT * FROM test:thingy ORDER BY name` formats back to that
very string, which reparses to the same statement. -/
theorem c5_parse_format_reparse_witness :
    select (fmtSelect ⟨[['*']],
        [['t', 'e', 's', 't', ':', 't', 'h', 'i', 'n', 'g', 'y']],
        none, none, none, some ⟨['n', 'a', 'm', 'e']⟩, none, none, none,
        none, none⟩) =
      some ([], ⟨[['*']],
        [['t', 'e', 's', 't', ':', 't', 'h', 'i', 'n', 'g', 'y']],
        none, none, none, some ⟨['n', 'a', 'm', 'e']⟩, none, none, none,
        none, none⟩) ∧
    fmtSelect ⟨[['*']],
        [['t', 'e', 's', 't', ':', 't', 'h', 'i', 'n', 'g', 'y']],
        none, none, none, some ⟨['n', 'a', 'm', 'e']⟩, none, none, none,
        none, none⟩ =
      "SELECT * FROM test:thingy ORDER BY name".data :=
  ⟨c5_parse_format_reparse "SELECT * FROM test:thingy ORDER BY name".data
      ⟨[['*']], [['t', 'e', 's', 't', ':', 't', 'h', 'i', 'n', 'g', 'y']],
        none, none, none, some ⟨['n', 'a', 'm', 'e']⟩, none, none, none,
        none, none⟩ (by rfl),
   by rfl⟩
